import Mathlib

/-!
Verification of the export indexer implemented in bin/create_hugo_yaml.py.

The script consumes a pre-built anthology object graph (papers, person names,
volumes, venues, SIGs) and produces normalized record collections for a static
site generator.  Python dictionaries are embedded as association lists in
insertion order; dictionary update, deletion and lookup are embedded below with
exact Python semantics (deletion of a missing key is a failure, update of an
existing key keeps its position).  Python's sorted builtin is embedded as a
stable insertion sort, in an ascending and a descending (reverse=True) variant.
Fallible operations (KeyError, IndexError, failed lookups) return Option.
-/

namespace CreateHugoYaml

/-- Lookup of d[k] for a Python dict embedded as an association list:
the value at the first matching key, if any. -/
def dget {α : Type} : List (String × α) → String → Option α
  | [], _ => none
  | (k2, v) :: rest, k => if k2 = k then some v else dget rest k

/-- Assignment d[k] = v: replace the value at the first matching key in place,
or append the new binding at the end (Python dicts keep insertion order). -/
def dset {α : Type} : List (String × α) → String → α → List (String × α)
  | [], k, v => [(k, v)]
  | (k2, v2) :: rest, k, v =>
      if k2 = k then (k, v) :: rest else (k2, v2) :: dset rest k v

/-- Deletion del d[k]: removes the first binding of k; raises (returns none)
when the key is absent, as Python does. -/
def ddel {α : Type} : List (String × α) → String → Option (List (String × α))
  | [], _ => none
  | (k2, v2) :: rest, k =>
      if k2 = k then some rest else (ddel rest k).map (fun r => (k2, v2) :: r)

/-- The key list of an embedded dictionary. -/
def dkeys {α : Type} (d : List (String × α)) : List String := d.map (fun p => p.1)

theorem dget_dset_self {α : Type} (d : List (String × α)) (k : String) (v : α) :
    dget (dset d k v) k = some v := by
  induction d with
  | nil => simp [dget, dset]
  | cons p rest ih =>
      obtain ⟨k2, v2⟩ := p
      by_cases h : k2 = k
      · simp [dget, dset, h]
      · simp [dget, dset, h, ih]

theorem dget_dset_ne {α : Type} (d : List (String × α)) (k k2 : String) (v : α)
    (h : k ≠ k2) : dget (dset d k v) k2 = dget d k2 := by
  induction d with
  | nil => simp [dget, dset, h]
  | cons p rest ih =>
      obtain ⟨k3, v3⟩ := p
      by_cases h3 : k3 = k
      · subst h3
        simp [dget, dset, h]
      · simp [dget, dset, h3, ih]

theorem dget_ddel_ne {α : Type} (d d2 : List (String × α)) (k k2 : String)
    (hdel : ddel d k = some d2) (h : k ≠ k2) : dget d2 k2 = dget d k2 := by
  induction d generalizing d2 with
  | nil => simp [ddel] at hdel
  | cons p rest ih =>
      obtain ⟨k3, v3⟩ := p
      by_cases h3 : k3 = k
      · subst h3
        simp [ddel] at hdel
        subst hdel
        simp [dget, h]
      · simp [ddel, h3] at hdel
        obtain ⟨r, hr, hd2⟩ := hdel
        subst hd2
        by_cases h4 : k3 = k2
        · simp [dget, h4]
        · simp [dget, h4, ih r hr]

theorem dget_eq_none_of_not_mem {α : Type} (d : List (String × α)) (k : String)
    (h : k ∉ dkeys d) : dget d k = none := by
  induction d with
  | nil => simp [dget]
  | cons p rest ih =>
      obtain ⟨k2, v2⟩ := p
      simp [dkeys] at h
      have h2 : k2 ≠ k := fun hh => h.1 hh.symm
      simp [dget, h2]
      exact ih (by simpa [dkeys] using h.2)

theorem dget_ddel_self {α : Type} (d d2 : List (String × α)) (k : String)
    (hnd : (dkeys d).Nodup) (hdel : ddel d k = some d2) : dget d2 k = none := by
  induction d generalizing d2 with
  | nil => simp [ddel] at hdel
  | cons p rest ih =>
      obtain ⟨k3, v3⟩ := p
      rw [show dkeys ((k3, v3) :: rest) = k3 :: dkeys rest from rfl,
        List.nodup_cons] at hnd
      by_cases h3 : k3 = k
      · subst h3
        simp [ddel] at hdel
        subst hdel
        exact dget_eq_none_of_not_mem rest k3 hnd.1
      · simp [ddel, h3] at hdel
        obtain ⟨r, hr, hd2⟩ := hdel
        subst hd2
        simp [dget, h3]
        exact ih r hnd.2 hr

theorem ddel_isSome_iff {α : Type} (d : List (String × α)) (k : String) :
    (ddel d k).isSome = (dget d k).isSome := by
  induction d with
  | nil => simp [ddel, dget]
  | cons p rest ih =>
      obtain ⟨k2, v2⟩ := p
      by_cases h : k2 = k
      · simp [ddel, dget, h]
      · simp [ddel, dget, h, ih]

theorem length_dset {α : Type} (d : List (String × α)) (k : String) (v : α) :
    (dset d k v).length = if (dget d k).isSome then d.length else d.length + 1 := by
  induction d with
  | nil => simp [dget, dset]
  | cons p rest ih =>
      obtain ⟨k2, v2⟩ := p
      by_cases h : k2 = k
      · simp [dget, dset, h]
      · simp only [dget, dset, h, if_false, List.length_cons, ih]
        by_cases h2 : (dget rest k).isSome
        · simp [h2]
        · simp [h2]

/-- Membership of a key after an update. -/
theorem dget_dset_isSome {α : Type} (d : List (String × α)) (k k2 : String) (v : α) :
    (dget (dset d k v) k2).isSome = ((dget d k2).isSome || k = k2) := by
  by_cases h : k = k2
  · subst h
    simp [dget_dset_self]
  · simp [dget_dset_ne d k k2 v h, h]

/-- Insertion step of the stable ascending sort: walk past the elements whose
key is strictly smaller, so that an element inserted from the left lands before
every element of equal key. -/
def insAsc {α β : Type} [LinearOrder β] (key : α → β) (x : α) : List α → List α
  | [] => [x]
  | y :: ys => if key y < key x then y :: insAsc key x ys else x :: y :: ys

/-- Python sorted(xs, key=key): stable, ascending. -/
def pySorted {α β : Type} [LinearOrder β] (key : α → β) : List α → List α
  | [] => []
  | x :: xs => insAsc key x (pySorted key xs)

/-- Insertion step of the stable descending sort: walk past the elements whose
key is strictly larger. -/
def insDesc {α β : Type} [LinearOrder β] (key : α → β) (x : α) : List α → List α
  | [] => [x]
  | y :: ys => if key x < key y then y :: insDesc key x ys else x :: y :: ys

/-- Python sorted(xs, key=key, reverse=True): stable, descending; elements with
equal keys keep their relative order (reverse=True does not flip ties). -/
def pySortedRev {α β : Type} [LinearOrder β] (key : α → β) : List α → List α
  | [] => []
  | x :: xs => insDesc key x (pySortedRev key xs)

theorem insAsc_perm {α β : Type} [LinearOrder β] (key : α → β) (x : α) (l : List α) :
    (insAsc key x l).Perm (x :: l) := by
  induction l with
  | nil => simp [insAsc]
  | cons y ys ih =>
      by_cases h : key y < key x
      · simp only [insAsc, h, if_true]
        exact (ih.cons y).trans (List.Perm.swap x y ys)
      · simp [insAsc, h]

theorem pySorted_perm {α β : Type} [LinearOrder β] (key : α → β) (l : List α) :
    (pySorted key l).Perm l := by
  induction l with
  | nil => simp [pySorted]
  | cons x xs ih =>
      exact (insAsc_perm key x (pySorted key xs)).trans (ih.cons x)

theorem insDesc_perm {α β : Type} [LinearOrder β] (key : α → β) (x : α) (l : List α) :
    (insDesc key x l).Perm (x :: l) := by
  induction l with
  | nil => simp [insDesc]
  | cons y ys ih =>
      by_cases h : key x < key y
      · simp only [insDesc, h, if_true]
        exact (ih.cons y).trans (List.Perm.swap x y ys)
      · simp [insDesc, h]

theorem pySortedRev_perm {α β : Type} [LinearOrder β] (key : α → β) (l : List α) :
    (pySortedRev key l).Perm l := by
  induction l with
  | nil => simp [pySortedRev]
  | cons x xs ih =>
      exact (insDesc_perm key x (pySortedRev key xs)).trans (ih.cons x)

theorem length_pySorted {α β : Type} [LinearOrder β] (key : α → β) (l : List α) :
    (pySorted key l).length = l.length :=
  (pySorted_perm key l).length_eq

theorem length_pySortedRev {α β : Type} [LinearOrder β] (key : α → β) (l : List α) :
    (pySortedRev key l).length = l.length :=
  (pySortedRev_perm key l).length_eq

theorem mem_insAsc {α β : Type} [LinearOrder β] (key : α → β) (x z : α) (l : List α) :
    z ∈ insAsc key x l ↔ z = x ∨ z ∈ l := by
  rw [(insAsc_perm key x l).mem_iff]
  simp

theorem mem_insDesc {α β : Type} [LinearOrder β] (key : α → β) (x z : α) (l : List α) :
    z ∈ insDesc key x l ↔ z = x ∨ z ∈ l := by
  rw [(insDesc_perm key x l).mem_iff]
  simp

theorem insAsc_pairwise {α β : Type} [LinearOrder β] (key : α → β) (x : α)
    (l : List α) (h : l.Pairwise (fun a b => key a ≤ key b)) :
    (insAsc key x l).Pairwise (fun a b => key a ≤ key b) := by
  induction l with
  | nil => simp [insAsc]
  | cons y ys ih =>
      rw [List.pairwise_cons] at h
      by_cases hlt : key y < key x
      · simp only [insAsc, hlt, if_true]
        rw [List.pairwise_cons]
        refine ⟨fun z hz => ?_, ih h.2⟩
        rcases (mem_insAsc key x z ys).1 hz with hz | hz
        · subst hz
          exact le_of_lt hlt
        · exact h.1 z hz
      · simp only [insAsc, hlt, if_false]
        rw [List.pairwise_cons]
        refine ⟨fun z hz => ?_, List.pairwise_cons.2 h⟩
        rcases List.mem_cons.1 hz with hz | hz
        · subst hz
          exact le_of_not_lt hlt
        · exact le_trans (le_of_not_lt hlt) (h.1 z hz)

theorem pySorted_pairwise {α β : Type} [LinearOrder β] (key : α → β) (l : List α) :
    (pySorted key l).Pairwise (fun a b => key a ≤ key b) := by
  induction l with
  | nil => simp [pySorted]
  | cons x xs ih => exact insAsc_pairwise key x (pySorted key xs) ih

theorem insDesc_pairwise {α β : Type} [LinearOrder β] (key : α → β) (x : α)
    (l : List α) (h : l.Pairwise (fun a b => key b ≤ key a)) :
    (insDesc key x l).Pairwise (fun a b => key b ≤ key a) := by
  induction l with
  | nil => simp [insDesc]
  | cons y ys ih =>
      rw [List.pairwise_cons] at h
      by_cases hlt : key x < key y
      · simp only [insDesc, hlt, if_true]
        rw [List.pairwise_cons]
        refine ⟨fun z hz => ?_, ih h.2⟩
        rcases (mem_insDesc key x z ys).1 hz with hz | hz
        · subst hz
          exact le_of_lt hlt
        · exact h.1 z hz
      · simp only [insDesc, hlt, if_false]
        rw [List.pairwise_cons]
        refine ⟨fun z hz => ?_, List.pairwise_cons.2 h⟩
        rcases List.mem_cons.1 hz with hz | hz
        · subst hz
          exact le_of_not_lt hlt
        · exact le_trans (h.1 z hz) (le_of_not_lt hlt)

theorem pySortedRev_pairwise {α β : Type} [LinearOrder β] (key : α → β) (l : List α) :
    (pySortedRev key l).Pairwise (fun a b => key b ≤ key a) := by
  induction l with
  | nil => simp [pySortedRev]
  | cons x xs ih => exact insDesc_pairwise key x (pySortedRev key xs) ih

theorem filter_insAsc {α β : Type} [LinearOrder β] (key : α → β) (x : α)
    (l : List α) (c : β) :
    (insAsc key x l).filter (fun a => decide (key a = c)) =
      if key x = c then x :: l.filter (fun a => decide (key a = c))
      else l.filter (fun a => decide (key a = c)) := by
  induction l with
  | nil =>
      by_cases h : key x = c
      · simp [insAsc, List.filter_cons, h]
      · simp [insAsc, List.filter_cons, h]
  | cons y ys ih =>
      by_cases hlt : key y < key x
      · have hstep : insAsc key x (y :: ys) = y :: insAsc key x ys := by
          simp [insAsc, hlt]
        rw [hstep, List.filter_cons, List.filter_cons, ih]
        by_cases h : key x = c
        · have hy : ¬ key y = c := fun hh => absurd hlt (by rw [hh, h]; exact lt_irrefl c)
          simp [h, hy]
        · by_cases hy : key y = c
          · simp [h, hy]
          · simp [h, hy]
      · have hstep : insAsc key x (y :: ys) = x :: y :: ys := by
          simp [insAsc, hlt]
        rw [hstep, List.filter_cons]
        by_cases h : key x = c
        · simp [h]
        · simp [h]

theorem filter_insDesc {α β : Type} [LinearOrder β] (key : α → β) (x : α)
    (l : List α) (c : β) :
    (insDesc key x l).filter (fun a => decide (key a = c)) =
      if key x = c then x :: l.filter (fun a => decide (key a = c))
      else l.filter (fun a => decide (key a = c)) := by
  induction l with
  | nil =>
      by_cases h : key x = c
      · simp [insDesc, List.filter_cons, h]
      · simp [insDesc, List.filter_cons, h]
  | cons y ys ih =>
      by_cases hlt : key x < key y
      · have hstep : insDesc key x (y :: ys) = y :: insDesc key x ys := by
          simp [insDesc, hlt]
        rw [hstep, List.filter_cons, List.filter_cons, ih]
        by_cases h : key x = c
        · have hy : ¬ key y = c := fun hh => absurd hlt (by rw [hh, h]; exact lt_irrefl c)
          simp [h, hy]
        · by_cases hy : key y = c
          · simp [h, hy]
          · simp [h, hy]
      · have hstep : insDesc key x (y :: ys) = x :: y :: ys := by
          simp [insDesc, hlt]
        rw [hstep, List.filter_cons]
        by_cases h : key x = c
        · simp [h]
        · simp [h]

/-- Stability of the ascending sort: the elements of any fixed key class come
out in exactly their input order. -/
theorem pySorted_stable {α β : Type} [LinearOrder β] (key : α → β) (l : List α)
    (c : β) :
    (pySorted key l).filter (fun a => decide (key a = c)) =
      l.filter (fun a => decide (key a = c)) := by
  induction l with
  | nil => simp [pySorted]
  | cons x xs ih =>
      show (insAsc key x (pySorted key xs)).filter (fun a => decide (key a = c)) = _
      rw [filter_insAsc, List.filter_cons]
      by_cases h : key x = c
      · simp [h, ih]
      · simp [h, ih]

/-- Stability of the descending sort (reverse=True). -/
theorem pySortedRev_stable {α β : Type} [LinearOrder β] (key : α → β) (l : List α)
    (c : β) :
    (pySortedRev key l).filter (fun a => decide (key a = c)) =
      l.filter (fun a => decide (key a = c)) := by
  induction l with
  | nil => simp [pySortedRev]
  | cons x xs ih =>
      show (insDesc key x (pySortedRev key xs)).filter (fun a => decide (key a = c)) = _
      rw [filter_insDesc, List.filter_cons]
      by_cases h : key x = c
      · simp [h, ih]
      · simp [h, ih]

/-- Modelled from the spec: a person name of the object graph (the anthology
library is not part of the exported sources).  Per the spec a name exposes a
dict-like export of its own fields; we model the raw name as a first/last pair. -/
structure PName where
  first : String
  last : String
deriving DecidableEq, Repr

/-- Values stored in export records: strings, years, string lists, year lists,
name lists (author/editor fields before slug resolution), [string, count]
pairs, and year-to-volume-id mappings. -/
inductive Val where
  | str (v : String)
  | nat (v : Nat)
  | strs (v : List String)
  | nats (v : List Nat)
  | names (v : List PName)
  | pairs (v : List (String × Nat))
  | ymap (v : List (Nat × List String))
deriving DecidableEq, Repr

/-- An export record / embedded Python dict with Val values. -/
abbrev Record := List (String × Val)

/-- Nested record indexes exceed the default instance-search size, so the
list instance is registered explicitly. -/
instance : DecidableEq (List (String × List (String × Record))) := List.hasDecEq

/-- Modelled from the spec: the dict-like export of a name's own fields
(a fresh dictionary on every call). -/
def PName.as_dict (n : PName) : Record :=
  [("first", Val.str n.first), ("last", Val.str n.last)]

/-- Modelled from the spec: a paper of the object graph.  It exposes a
dict-like export of all its fields (as_dict, a fresh dictionary each call),
HTML-rendered title/booktitle/abstract accessors, a top-level group id and a
full id. -/
structure Paper where
  top_level_id : String
  full_id : String
  attrib : Record
  title_html : String
  booktitle_html : String
  abstract_html : String
deriving DecidableEq, Repr

/-- The paper's as_dict export: a fresh copy of its field dictionary. -/
def Paper.as_dict (p : Paper) : Record := p.attrib

/-- Modelled from the spec: a volume of the object graph, exposing its stored
attribute dictionary (attrib, NOT copied by the exporter), an HTML-rendered
title accessor, an ordered paper-id list and a full id. -/
structure Volume where
  full_id : String
  attrib : Record
  title_html : String
  paper_ids : List String
deriving DecidableEq, Repr

/-- Modelled from the spec: a SIG, exposing name, slug, url, a precomputed
year-to-volumes mapping and a set of active years. -/
structure Sig where
  name : String
  slug : String
  url : String
  volumes_by_year : List (Nat × List String)
  years : List Nat
deriving DecidableEq, Repr

/-- Modelled from the spec: the person-name index of the object graph, with
slug lookup, canonical/variant classification, per-identity aggregate
accessors and variant registration queries.  All mappings are association
lists on names; a missing slug or missing canonical representative is a
lookup failure. -/
structure PeopleIndex where
  name_list : List PName
  slugs : List (PName × String)
  canonicals : List PName
  papers_of : List (PName × List String)
  coauthors_of : List (PName × List (PName × Nat))
  venues_of : List (PName × List (String × Nat))
  variants_of : List (PName × List PName)
  canonical_of : List (PName × PName)
deriving DecidableEq, Repr

/-- Enumeration of all known names (canonical and variant). -/
def PeopleIndex.names (pe : PeopleIndex) : List PName := pe.name_list

/-- Slug lookup; fails (KeyError upstream) when the name is unregistered. -/
def PeopleIndex.get_slug (pe : PeopleIndex) (n : PName) : Option String :=
  (pe.slugs.find? (fun p => p.1 == n)).map (fun p => p.2)

/-- Canonical/variant classification. -/
def PeopleIndex.is_canonical (pe : PeopleIndex) (n : PName) : Bool :=
  pe.canonicals.contains n

/-- All paper ids attributed to the identity cluster (include_variants=True). -/
def PeopleIndex.get_papers (pe : PeopleIndex) (n : PName) : List String :=
  ((pe.papers_of.find? (fun p => p.1 == n)).map (fun p => p.2)).getD []

/-- Coauthor names with shared-paper counts (include_variants=True). -/
def PeopleIndex.get_coauthors (pe : PeopleIndex) (n : PName) : List (PName × Nat) :=
  ((pe.coauthors_of.find? (fun p => p.1 == n)).map (fun p => p.2)).getD []

/-- Venue acronyms with paper counts for the identity cluster; the source
passes the venue index as an argument but only the name determines the
result. -/
def PeopleIndex.get_venues (pe : PeopleIndex) (n : PName) : List (String × Nat) :=
  ((pe.venues_of.find? (fun p => p.1 == n)).map (fun p => p.2)).getD []

/-- Registered variant names of a canonical name. -/
def PeopleIndex.get_registered_variants (pe : PeopleIndex) (n : PName) : List PName :=
  ((pe.variants_of.find? (fun p => p.1 == n)).map (fun p => p.2)).getD []

/-- Whether the identity cluster has registered variants. -/
def PeopleIndex.has_variants (pe : PeopleIndex) (n : PName) : Bool :=
  !(pe.get_registered_variants n).isEmpty

/-- The canonical representative of a variant name; a lookup failure when the
variant is not registered. -/
def PeopleIndex.get_canonical_variant (pe : PeopleIndex) (n : PName) : Option PName :=
  (pe.canonical_of.find? (fun p => p.1 == n)).map (fun p => p.2)

/-- The whole object graph consumed by export_anthology. -/
structure Anthology where
  papers : List (String × Paper)
  people : PeopleIndex
  volumes : List (String × Volume)
  venues : List (String × Record)
  sigs : List (String × Sig)
deriving DecidableEq, Repr

/-- Fallible map over a list, left to right, stopping at the first failure
(the Option instance of mapM, written out for direct reasoning). -/
def mapOpt {α β : Type} (f : α → Option β) : List α → Option (List β)
  | [] => some []
  | x :: xs => do
      let y ← f x
      let rest ← mapOpt f xs
      pure (y :: rest)

/-- Fallible left fold, stopping at the first failure (the Option instance of
foldlM, written out for direct reasoning). -/
def foldOpt {α γ : Type} (g : γ → α → Option γ) : List α → γ → Option γ
  | [], acc => some acc
  | x :: xs, acc => (g acc x).bind (fun a => foldOpt g xs a)

/-- Fallible filter with a fallible predicate, left to right (Python's filter
under a fallible element test, forced by the surrounding sorted()). -/
def filterOpt {α : Type} (p : α → Option Bool) : List α → Option (List α)
  | [] => some []
  | x :: xs => do
      let b ← p x
      let rest ← filterOpt p xs
      pure (if b then x :: rest else rest)

/-- Nested assignment outer[k1][k2] = v into a defaultdict(dict): the missing
outer bucket defaults to the empty dict. -/
def dset2 {α : Type} (idx : List (String × List (String × α))) (k1 k2 : String)
    (v : α) : List (String × List (String × α)) :=
  dset idx k1 (dset ((dget idx k1).getD []) k2 v)

/-- Nested lookup outer[k1][k2]. -/
def dget2 {α : Type} (idx : List (String × List (String × α))) (k1 k2 : String) :
    Option α :=
  (dget idx k1).bind (fun inner => dget inner k2)

/-- Conditional dual-form treatment of a raw-markup field (source lines 58-63):
when the raw key is present, add the HTML-rendered variant under the html key
and delete the raw key; otherwise leave the record unchanged. -/
def html_variant_step (d : Record) (raw html : String) (rendered : String) :
    Option Record :=
  if (dget d raw).isSome then ddel (dset d html (Val.str rendered)) raw
  else pure d

/-- Conditional deletion (source lines 125-126): delete the key when present. -/
def del_if_present (d : Record) (k : String) : Option Record :=
  if (dget d k).isSome then ddel d k else pure d

/-- Resolution of an optional author/editor name-list field (source lines
64-71 and 128-135): when the key is present, each name is replaced by its
slug in order; a name without a registered slug is a fatal lookup failure.
A present value that is not a name list cannot be iterated as names. -/
def resolve_names (pe : PeopleIndex) (data : Record) (k : String) : Option Record :=
  match dget data k with
  | some (Val.names ns) =>
      (mapOpt pe.get_slug ns).map (fun slugs => dset data k (Val.strs slugs))
  | some _ => none
  | none => some data

/-- Body of the paper loop of export_anthology (source lines 53-72): start
from the paper's as_dict export, add title_html, delete xml_title, treat an
optional xml_booktitle and xml_abstract the same way, and resolve author and
editor name lists to slugs. -/
def build_paper_record (pe : PeopleIndex) (paper : Paper) : Option Record := do
  let data := paper.as_dict
  let data := dset data "title_html" (Val.str paper.title_html)
  let data ← ddel data "xml_title"
  let data ← html_variant_step data "xml_booktitle" "booktitle_html" paper.booktitle_html
  let data ← html_variant_step data "xml_abstract" "abstract_html" paper.abstract_html
  let data ← resolve_names pe data "author"
  let data ← resolve_names pe data "editor"
  pure data

/-- The paper index (source lines 52-72): a defaultdict grouping each built
paper record under papers[paper.top_level_id][paper.full_id]. -/
def build_papers (anth : Anthology) : Option (List (String × List (String × Record))) :=
  foldOpt
    (fun idx q =>
      (build_paper_record anth.people q.2).map
        (fun data => dset2 idx q.2.top_level_id q.2.full_id data))
    anth.papers []

/-- The year used to sort a person's papers (source line 84):
anthology.papers.get(p).get("year"); a missing paper id or a missing or
non-year value is fatal when the sort key is computed. -/
def paper_year (anth : Anthology) (p : String) : Option Nat := do
  let paper ← dget anth.papers p
  match dget paper.attrib "year" with
  | some (Val.nat y) => some y
  | _ => none

/-- The record built for one person name (source lines 78-115): the name's
own fields plus its slug; a canonical name additionally gets its cluster's
papers (sorted by descending year, stable), coauthors and venues (sorted by
descending count, stable) and, when variants are registered, their slugs; a
variant name instead gets the slug of its canonical representative. -/
def person_record (anth : Anthology) (n : PName) (slug : String) : Option Record := do
  let data := dset n.as_dict "slug" (Val.str slug)
  if anth.people.is_canonical n then do
    let keyed ← mapOpt (fun p => (paper_year anth p).map (fun y => (p, y)))
      (anth.people.get_papers n)
    let data := dset data "papers"
      (Val.strs ((pySortedRev (fun q => q.2) keyed).map (fun q => q.1)))
    let co ← mapOpt (fun q => (anth.people.get_slug q.1).map (fun s => (s, q.2)))
      (anth.people.get_coauthors n)
    let data := dset data "coauthors"
      (Val.pairs (pySortedRev (fun q => q.2) co))
    let data := dset data "venues"
      (Val.pairs (pySortedRev (fun q => q.2) (anth.people.get_venues n)))
    if anth.people.has_variants n then do
      let ve ← mapOpt anth.people.get_slug (anth.people.get_registered_variants n)
      pure (dset data "variant_entries" (Val.strs ve))
    else
      pure data
  else do
    let c ← anth.people.get_canonical_variant n
    let cs ← anth.people.get_slug c
    pure (dset data "canonical_entry" (Val.str cs))

/-- One person's slot in the people index (source lines 76-116): the bucket
key slug[0] (an IndexError, hence a failure, on an empty slug), the full slug
and the built record. -/
def person_entry (anth : Anthology) (n : PName) : Option (String × String × Record) := do
  let slug ← anth.people.get_slug n
  let data ← person_record anth n slug
  let c ← slug.data.head?
  pure (String.mk [c], slug, data)

/-- The people index (source lines 75-116): a defaultdict grouping each built
person record under people[slug[0]][slug]. -/
def build_people (anth : Anthology) : Option (List (String × List (String × Record))) :=
  foldOpt
    (fun idx n => (person_entry anth n).map (fun t => dset2 idx t.1 t.2.1 t.2.2))
    anth.people.names []

/-- Body of the volume loop (source lines 120-136).  Line 122 binds data to
volume.attrib WITHOUT copying, so every update of data below is an in-place
update of the input volume's stored attribute dictionary; the step therefore
returns both the built record and the volume as it is left after the loop
body, whose attrib is that record. -/
def volume_step (pe : PeopleIndex) (volume : Volume) : Option (Record × Volume) := do
  let data := volume.attrib
  let data := dset data "title_html" (Val.str volume.title_html)
  let data ← ddel data "xml_title"
  let data ← del_if_present data "xml_abstract"
  let data := dset data "papers" (Val.strs volume.paper_ids)
  let data ← resolve_names pe data "author"
  let data ← resolve_names pe data "editor"
  pure (data, { volume with attrib := data })

/-- The volume index (source lines 119-136), keyed by volume.full_id,
together with the post-state of the input volume list (the exporter mutates
each volume's attribute dictionary in place). -/
def build_volumes (anth : Anthology) :
    Option (List (String × Record) × List (String × Volume)) :=
  foldOpt
    (fun acc q =>
      (volume_step anth.people q.2).map
        (fun r => (dset acc.1 q.2.full_id r.1, acc.2 ++ [(q.1, r.2)])))
    anth.volumes ([], [])

/-- The volume ids of one venue active in one year (source line 143):
sorted(filter(lambda k: volumes[k]["year"] == year, data["volumes"])).  Each
candidate id is looked up in the built volume index (KeyError when absent,
KeyError when its record has no year key); a non-year value compares unequal
without error. -/
def venue_volumes_for_year (vidx : List (String × Record)) (vs : List String)
    (year : Nat) : Option (List String) := do
  let kept ← filterOpt (fun k =>
    match dget vidx k with
    | none => none
    | some r =>
        match dget r "year" with
        | none => none
        | some (Val.nat y) => some (y == year)
        | some _ => some false) vs
  pure (pySorted (fun s => s) kept)

/-- Body of the venue loop (source lines 140-148): copy the venue's field
dict, derive volumes_by_year for each active year in ascending order, replace
the years set by its sorted list, and delete the internal volumes key. -/
def venue_entry (vidx : List (String × Record)) (data : Record) : Option Record := do
  let ys ←
    match dget data "years" with
    | some (Val.nats ys) => some ys
    | _ => none
  let vs ←
    match dget data "volumes" with
    | some (Val.strs vs) => some vs
    | _ => none
  let vby ← mapOpt (fun y => (venue_volumes_for_year vidx vs y).map (fun l => (y, l)))
    (pySorted (fun y => y) ys)
  let data := dset data "volumes_by_year" (Val.ymap vby)
  let data := dset data "years" (Val.nats (pySorted (fun y => y) ys))
  ddel data "volumes"

/-- The venue index (source lines 139-148), keyed by acronym. -/
def build_venues (vidx : List (String × Record)) (venues : List (String × Record)) :
    Option (List (String × Record)) :=
  foldOpt
    (fun idx q => (venue_entry vidx q.2).map (fun d => dset idx q.1 d))
    venues []

/-- The record built for one SIG (source lines 153-159); the SIG's years are
stringified and sorted as strings. -/
def sig_record (sig : Sig) : Record :=
  [("name", Val.str sig.name),
   ("slug", Val.str sig.slug),
   ("url", Val.str sig.url),
   ("volumes_by_year", Val.ymap sig.volumes_by_year),
   ("years", Val.strs (pySorted (fun s => s) (sig.years.map (fun y => toString y))))]

/-- The SIG index (source lines 151-160), keyed by acronym. -/
def build_sigs (sigs : List (String × Sig)) : List (String × Record) :=
  sigs.foldl (fun idx q => dset idx q.1 (sig_record q.2)) []

/-- A filesystem effect of the exporter: a directory creation or a file
write. -/
inductive FsOp where
  | mkdir (path : String)
  | write (path : String)
deriving DecidableEq, Repr

/-- The directory creations of source lines 46-49: for each of outdir itself
(formatted as outdir/), outdir/papers and outdir/people, mkdir when the
directory does not already exist.  These run UNCONDITIONALLY, before the
dryrun test. -/
def mkdir_effects (outdir : String) (existing : List String) : List FsOp :=
  ["", "papers", "people"].filterMap (fun sub =>
    let target := outdir ++ "/" ++ sub
    if existing.contains target then none else some (FsOp.mkdir target))

/-- The file writes of source lines 163-186, performed only when dryrun is
false: one file per paper group, the volumes, venues and sigs files, and one
file per people bucket. -/
def write_effects (outdir : String)
    (papers : List (String × List (String × Record)))
    (people : List (String × List (String × Record))) : List FsOp :=
  papers.map (fun g => FsOp.write (outdir ++ "/papers/" ++ g.1 ++ ".yaml"))
    ++ [FsOp.write (outdir ++ "/volumes.yaml"),
        FsOp.write (outdir ++ "/venues.yaml"),
        FsOp.write (outdir ++ "/sigs.yaml")]
    ++ people.map (fun g => FsOp.write (outdir ++ "/people/" ++ g.1 ++ ".yaml"))

/-- Everything export_anthology produces: the five record collections, the
post-state of the object graph (volume attribute dictionaries are mutated in
place) and the filesystem effects. -/
structure ExportResult where
  papers : List (String × List (String × Record))
  people : List (String × List (String × Record))
  volumes : List (String × Record)
  venues : List (String × Record)
  sigs : List (String × Record)
  post : Anthology
  effects : List FsOp
deriving DecidableEq, Repr

/-- export_anthology (source lines 44-186): create the output directories,
build the paper, people, volume, venue and SIG indexes, and, unless dryrun is
set, write one YAML file per paper group, one for volumes, venues and sigs
each, and one per people bucket.  The filesystem state is abstracted as the
list of directories that already exist. -/
def export_anthology (anth : Anthology) (outdir : String) (existing : List String)
    (dryrun : Bool) : Option ExportResult := do
  let dirops := mkdir_effects outdir existing
  let papers ← build_papers anth
  let people ← build_people anth
  let vols ← build_volumes anth
  let venues ← build_venues vols.1 anth.venues
  let sigs := build_sigs anth.sigs
  let ops := dirops ++ (if dryrun then [] else write_effects outdir papers people)
  pure
    { papers := papers
      people := people
      volumes := vols.1
      venues := venues
      sigs := sigs
      post := { anth with volumes := vols.2 }
      effects := ops }

/-- Inversion of a successful mapOpt: the outputs are pointwise the successful
images of the inputs. -/
theorem mapOpt_some_forall2 {α β : Type} (f : α → Option β) (l : List α)
    (l2 : List β) (h : mapOpt f l = some l2) :
    List.Forall₂ (fun a b => f a = some b) l l2 := by
  induction l generalizing l2 with
  | nil =>
      simp [mapOpt] at h
      subst h
      exact List.Forall₂.nil
  | cons x xs ih =>
      simp only [mapOpt, Option.bind_eq_bind, Option.bind_eq_some] at h
      obtain ⟨y, hy, rest, hrest, hcons⟩ := h
      rw [show pure (y :: rest) = some (y :: rest) from rfl] at hcons
      cases hcons
      exact List.Forall₂.cons hy (ih rest hrest)

theorem mapOpt_isSome {α β : Type} (f : α → Option β) (l : List α)
    (h : ∀ a ∈ l, (f a).isSome) : (mapOpt f l).isSome := by
  induction l with
  | nil => simp [mapOpt]
  | cons x xs ih =>
      obtain ⟨y, hy⟩ := Option.isSome_iff_exists.1 (h x (List.mem_cons_self x xs))
      obtain ⟨rest, hrest⟩ := Option.isSome_iff_exists.1
        (ih (fun a ha => h a (List.mem_cons_of_mem x ha)))
      simp [mapOpt, hy, hrest]

theorem mapOpt_eq_none {α β : Type} (f : α → Option β) (l : List α) (a : α)
    (ha : a ∈ l) (hf : f a = none) : mapOpt f l = none := by
  induction l with
  | nil => cases ha
  | cons x xs ih =>
      rcases List.mem_cons.1 ha with h | h
      · subst h
        simp [mapOpt, hf]
      · cases hx : f x with
        | none => simp [mapOpt, hx]
        | some y => simp [mapOpt, hx, ih h]

theorem foldOpt_map_some {α β γ : Type} (f : α → Option β) (g : γ → α → β → γ)
    (l : List α) (i r : γ) (d : β)
    (h : foldOpt (fun acc x => (f x).map (g acc x)) l i = some r) :
    (∀ x ∈ l, (f x).isSome) ∧
      r = l.foldl (fun acc x => g acc x ((f x).getD d)) i := by
  induction l generalizing i with
  | nil =>
      simp [foldOpt] at h
      subst h
      exact ⟨by simp, rfl⟩
  | cons x xs ih =>
      simp only [foldOpt, Option.bind_eq_some] at h
      obtain ⟨a, ha, hrest⟩ := h
      cases hx : f x with
      | none => rw [hx] at ha; simp at ha
      | some y =>
          rw [hx] at ha
          simp at ha
          subst ha
          obtain ⟨hall, hr⟩ := ih (g i x y) hrest
          refine ⟨fun z hz => ?_, ?_⟩
          · rcases List.mem_cons.1 hz with h2 | h2
            · subst h2; simp [hx]
            · exact hall z h2
          · rw [List.foldl_cons, hr, hx]
            simp

theorem foldOpt_map_isSome {α β γ : Type} (f : α → Option β) (g : γ → α → β → γ)
    (l : List α) (i : γ) (h : ∀ x ∈ l, (f x).isSome) :
    (foldOpt (fun acc x => (f x).map (g acc x)) l i).isSome := by
  induction l generalizing i with
  | nil => simp [foldOpt]
  | cons x xs ih =>
      obtain ⟨y, hy⟩ := Option.isSome_iff_exists.1 (h x (List.mem_cons_self x xs))
      simpa [foldOpt, hy] using ih (g i x y) (fun a ha => h a (List.mem_cons_of_mem x ha))

theorem foldOpt_map_eq_none {α β γ : Type} (f : α → Option β) (g : γ → α → β → γ)
    (l : List α) (i : γ) (x : α) (hx : x ∈ l) (hf : f x = none) :
    foldOpt (fun acc y => (f y).map (g acc y)) l i = none := by
  induction l generalizing i with
  | nil => cases hx
  | cons z zs ih =>
      rcases List.mem_cons.1 hx with h | h
      · subst h
        simp [foldOpt, hf]
      · cases hz : f z with
        | none => simp [foldOpt, hz]
        | some y => simp [foldOpt, hz, ih (g i z y) h]

theorem filterOpt_eq_filter {α : Type} (p : α → Option Bool) (q : α → Bool)
    (l : List α) (h : ∀ x ∈ l, p x = some (q x)) :
    filterOpt p l = some (l.filter q) := by
  induction l with
  | nil => simp [filterOpt]
  | cons x xs ih =>
      have hx := h x (List.mem_cons_self x xs)
      have hrest := ih (fun a ha => h a (List.mem_cons_of_mem x ha))
      by_cases hq : q x
      · simp [filterOpt, hx, hrest, List.filter_cons, hq]
      · simp [filterOpt, hx, hrest, List.filter_cons, hq]

theorem filterOpt_eq_none {α : Type} (p : α → Option Bool) (l : List α) (x : α)
    (hx : x ∈ l) (hp : p x = none) : filterOpt p l = none := by
  induction l with
  | nil => cases hx
  | cons z zs ih =>
      rcases List.mem_cons.1 hx with h | h
      · subst h
        simp [filterOpt, hp]
      · cases hz : p z with
        | none => simp [filterOpt, hz]
        | some b => simp [filterOpt, hz, ih h]

theorem dget_mem {α : Type} (d : List (String × α)) (k : String) (v : α)
    (h : dget d k = some v) : (k, v) ∈ d := by
  induction d with
  | nil => simp [dget] at h
  | cons p rest ih =>
      obtain ⟨k2, v2⟩ := p
      by_cases h2 : k2 = k
      · subst h2
        simp [dget] at h
        subst h
        exact List.mem_cons_self _ _
      · simp [dget, h2] at h
        exact List.mem_cons_of_mem _ (ih h)

theorem mem_dset {α : Type} (d : List (String × α)) (k : String) (v : α)
    (q : String × α) (h : q ∈ dset d k v) : q = (k, v) ∨ q ∈ d := by
  induction d with
  | nil => simp [dset] at h; exact Or.inl h
  | cons p rest ih =>
      obtain ⟨k2, v2⟩ := p
      by_cases h2 : k2 = k
      · subst h2
        simp [dset] at h
        rcases h with h | h
        · exact Or.inl (by simp [h])
        · exact Or.inr (List.mem_cons_of_mem _ h)
      · simp only [dset, h2, if_false] at h
        rcases List.mem_cons.1 h with h | h
        · exact Or.inr (by simp [h])
        · rcases ih h with h | h
          · exact Or.inl h
          · exact Or.inr (List.mem_cons_of_mem _ h)

theorem dget2_dset2_self {α : Type} (idx : List (String × List (String × α)))
    (g f : String) (v : α) : dget2 (dset2 idx g f v) g f = some v := by
  simp [dget2, dset2, dget_dset_self]

theorem dget2_dset2_ne_outer {α : Type} (idx : List (String × List (String × α)))
    (g f g2 f2 : String) (v : α) (h : g ≠ g2) :
    dget2 (dset2 idx g f v) g2 f2 = dget2 idx g2 f2 := by
  simp [dget2, dset2, dget_dset_ne _ g g2 _ h]

theorem dget2_dset2_ne_inner {α : Type} (idx : List (String × List (String × α)))
    (g f g2 f2 : String) (v : α) (h : f ≠ f2) :
    dget2 (dset2 idx g f v) g2 f2 = dget2 idx g2 f2 := by
  by_cases hg : g = g2
  · subst hg
    simp only [dget2, dset2, dget_dset_self, Option.some_bind]
    rw [dget_dset_ne _ f f2 _ h]
    cases hd : dget idx g with
    | none => simp [dget, hd]
    | some inner => simp [hd]
  · exact dget2_dset2_ne_outer idx g f g2 f2 v hg

/-- All full-id keys occurring in any bucket of a nested index. -/
def innerKeys {α : Type} (idx : List (String × List (String × α))) : List String :=
  (idx.map (fun gp => dkeys gp.2)).flatten

/-- Total number of records in a nested index. -/
def isize {α : Type} (idx : List (String × List (String × α))) : Nat :=
  (idx.map (fun gp => gp.2.length)).sum

theorem mem_innerKeys {α : Type} (idx : List (String × List (String × α)))
    (f : String) :
    f ∈ innerKeys idx ↔ ∃ gp ∈ idx, f ∈ dkeys gp.2 := by
  simp only [innerKeys, List.mem_flatten, List.mem_map]
  constructor
  · rintro ⟨l, ⟨gp, hgp, rfl⟩, hf⟩
    exact ⟨gp, hgp, hf⟩
  · rintro ⟨gp, hgp, hf⟩
    exact ⟨dkeys gp.2, ⟨gp, hgp, rfl⟩, hf⟩

theorem mem_dkeys_dset {α : Type} (d : List (String × α)) (k k2 : String) (v : α)
    (h : k2 ∈ dkeys (dset d k v)) : k2 = k ∨ k2 ∈ dkeys d := by
  simp only [dkeys, List.mem_map] at h ⊢
  obtain ⟨q, hq, hk⟩ := h
  rcases mem_dset d k v q hq with h2 | h2
  · subst h2
    exact Or.inl (by simpa using hk.symm)
  · exact Or.inr ⟨q, h2, hk⟩

theorem mem_innerKeys_dset2 {α : Type} (idx : List (String × List (String × α)))
    (g f f2 : String) (v : α) (h : f2 ∈ innerKeys (dset2 idx g f v)) :
    f2 = f ∨ f2 ∈ innerKeys idx := by
  rw [mem_innerKeys] at h
  obtain ⟨gp, hgp, hf⟩ := h
  rcases mem_dset idx g _ gp hgp with h2 | h2
  · subst h2
    rcases mem_dkeys_dset _ f f2 v hf with h3 | h3
    · exact Or.inl h3
    · cases hd : dget idx g with
      | none =>
          rw [hd] at h3
          simp [dkeys] at h3
      | some inner =>
          rw [hd] at h3
          right
          rw [mem_innerKeys]
          exact ⟨(g, inner), dget_mem idx g inner hd, h3⟩
  · exact Or.inr ((mem_innerKeys idx f2).2 ⟨gp, h2, hf⟩)

theorem mem_innerKeys_of_dget2 {α : Type} (idx : List (String × List (String × α)))
    (g f : String) (r : α) (h : dget2 idx g f = some r) : f ∈ innerKeys idx := by
  simp only [dget2, Option.bind_eq_some] at h
  obtain ⟨inner, hinner, hf⟩ := h
  rw [mem_innerKeys]
  refine ⟨(g, inner), dget_mem idx g inner hinner, ?_⟩
  simp only [dkeys, List.mem_map]
  exact ⟨(f, r), dget_mem inner f r hf, rfl⟩

theorem isize_dset2 {α : Type} (idx : List (String × List (String × α)))
    (g f : String) (v : α) :
    isize (dset2 idx g f v) =
      isize idx + (if (dget2 idx g f).isSome then 0 else 1) := by
  induction idx with
  | nil => simp [isize, dset2, dset, dget2, dget, length_dset]
  | cons gp rest ih =>
      obtain ⟨g2, inner2⟩ := gp
      by_cases hg : g2 = g
      · subst hg
        simp only [dset2, dget, dget2, if_true, reduceIte] at *
        simp only [dset, reduceIte]
        simp only [isize, List.map_cons, List.sum_cons, length_dset]
        cases hdi : (dget inner2 f).isSome
        · simp only [Option.getD_some, Option.some_bind, hdi, Bool.false_eq_true,
            if_false]
          omega
        · simp only [Option.getD_some, Option.some_bind, hdi, if_true]
          omega
      · have hstep : dset2 ((g2, inner2) :: rest) g f v =
            (g2, inner2) :: dset2 rest g f v := by
          simp [dset2, dset, hg, dget, hg]
        rw [hstep]
        have hget : dget2 ((g2, inner2) :: rest) g f = dget2 rest g f := by
          simp [dget2, dget, hg]
        rw [hget]
        simp only [isize, List.map_cons, List.sum_cons] at *
        rw [ih]
        omega

theorem dget2_foldl_preserve {α β : Type} (k1 k2 : α → String) (v : α → β)
    (l : List α) (idx : List (String × List (String × β))) (g f : String)
    (h : ∀ x ∈ l, k2 x ≠ f) :
    dget2 (l.foldl (fun i x => dset2 i (k1 x) (k2 x) (v x)) idx) g f =
      dget2 idx g f := by
  induction l generalizing idx with
  | nil => rfl
  | cons y ys ih =>
      rw [List.foldl_cons, ih _ (fun x hx => h x (List.mem_cons_of_mem y hx)),
        dget2_dset2_ne_inner _ _ _ _ _ _ (h y (List.mem_cons_self y ys))]

theorem dget2_foldl_self {α β : Type} (k1 k2 : α → String) (v : α → β)
    (l : List α) (idx : List (String × List (String × β)))
    (hnd : (l.map k2).Nodup) (x : α) (hx : x ∈ l) :
    dget2 (l.foldl (fun i y => dset2 i (k1 y) (k2 y) (v y)) idx) (k1 x) (k2 x) =
      some (v x) := by
  induction l generalizing idx with
  | nil => cases hx
  | cons y ys ih =>
      rw [List.map_cons, List.nodup_cons] at hnd
      rw [List.foldl_cons]
      rcases List.mem_cons.1 hx with h | h
      · subst h
        rw [dget2_foldl_preserve k1 k2 v ys _ (k1 x) (k2 x)
          (fun z hz hNe => hnd.1 (hNe ▸ List.mem_map_of_mem k2 hz))]
        exact dget2_dset2_self _ _ _ _
      · exact ih _ hnd.2 h

theorem dget2_foldl_mem {α β : Type} (k1 k2 : α → String) (v : α → β)
    (l : List α) (idx : List (String × List (String × β))) (g f : String) (r : β)
    (h : dget2 (l.foldl (fun i y => dset2 i (k1 y) (k2 y) (v y)) idx) g f = some r) :
    (∃ x ∈ l, k1 x = g ∧ k2 x = f ∧ v x = r) ∨ dget2 idx g f = some r := by
  induction l generalizing idx with
  | nil => exact Or.inr h
  | cons y ys ih =>
      rw [List.foldl_cons] at h
      rcases ih _ h with hc | hc
      · obtain ⟨x, hx, hh⟩ := hc
        exact Or.inl ⟨x, List.mem_cons_of_mem y hx, hh⟩
      · by_cases hf : k2 y = f
        · by_cases hg : k1 y = g
          · rw [← hg, ← hf, dget2_dset2_self] at hc
            have hr : v y = r := by injection hc
            exact Or.inl ⟨y, List.mem_cons_self y ys, hg, hf, hr⟩
          · rw [dget2_dset2_ne_outer _ _ _ _ _ _ hg] at hc
            exact Or.inr hc
        · rw [dget2_dset2_ne_inner _ _ _ _ _ _ hf] at hc
          exact Or.inr hc

theorem isize_foldl {α β : Type} (k1 k2 : α → String) (v : α → β)
    (l : List α) (idx : List (String × List (String × β)))
    (hnd : (l.map k2).Nodup) (hfresh : ∀ x ∈ l, k2 x ∉ innerKeys idx) :
    isize (l.foldl (fun i y => dset2 i (k1 y) (k2 y) (v y)) idx) =
      isize idx + l.length := by
  induction l generalizing idx with
  | nil => simp
  | cons y ys ih =>
      rw [List.map_cons, List.nodup_cons] at hnd
      have hfresh2 : ∀ x ∈ ys, k2 x ∉ innerKeys (dset2 idx (k1 y) (k2 y) (v y)) := by
        intro x hx hmem
        rcases mem_innerKeys_dset2 _ _ _ _ _ hmem with h2 | h2
        · exact hnd.1 (h2 ▸ List.mem_map_of_mem k2 hx)
        · exact hfresh x (List.mem_cons_of_mem y hx) h2
      rw [List.foldl_cons, ih _ hnd.2 hfresh2, isize_dset2]
      have hnone : (dget2 idx (k1 y) (k2 y)).isSome = false := by
        cases hv : dget2 idx (k1 y) (k2 y) with
        | none => rfl
        | some r =>
            exact absurd (mem_innerKeys_of_dget2 _ _ _ _ hv)
              (hfresh y (List.mem_cons_self y ys))
      rw [hnone]
      simp only [Bool.false_eq_true, if_false, List.length_cons]
      omega

/-- The pure fold that a successful build_papers reduces to. -/
theorem build_papers_eq_foldl (anth : Anthology)
    (idx : List (String × List (String × Record)))
    (hb : build_papers anth = some idx) :
    (∀ q ∈ anth.papers, (build_paper_record anth.people q.2).isSome) ∧
      idx = anth.papers.foldl
        (fun i q => dset2 i q.2.top_level_id q.2.full_id
          ((build_paper_record anth.people q.2).getD [])) [] := by
  unfold build_papers at hb
  have h := foldOpt_map_some (fun q => build_paper_record anth.people q.2)
    (fun i q data => dset2 i q.2.top_level_id q.2.full_id data)
    anth.papers [] idx [] hb
  exact ⟨h.1, h.2⟩

/-- C3: Paper grouping is total.  Under a successful build with
pairwise-distinct full ids, every input paper's built record is found at
papers[top_level_id][full_id]; every record in the index is the built record
of an input paper with matching keys; and the total number of stored records
equals the number of input papers, so no paper is dropped or duplicated. -/
theorem papers_grouping_total (anth : Anthology)
    (idx : List (String × List (String × Record)))
    (hnd : (anth.papers.map (fun q => q.2.full_id)).Nodup)
    (hb : build_papers anth = some idx) :
    (∀ q ∈ anth.papers, ∃ r, build_paper_record anth.people q.2 = some r ∧
        dget2 idx q.2.top_level_id q.2.full_id = some r) ∧
    (∀ g f r, dget2 idx g f = some r →
        ∃ q ∈ anth.papers, q.2.top_level_id = g ∧ q.2.full_id = f ∧
          build_paper_record anth.people q.2 = some r) ∧
    isize idx = anth.papers.length := by
  obtain ⟨hall, hidx⟩ := build_papers_eq_foldl anth idx hb
  subst hidx
  refine ⟨?_, ?_, ?_⟩
  · intro q hq
    obtain ⟨r, hr⟩ := Option.isSome_iff_exists.1 (hall q hq)
    refine ⟨r, hr, ?_⟩
    have h := dget2_foldl_self (fun q => q.2.top_level_id) (fun q => q.2.full_id)
      (fun q => (build_paper_record anth.people q.2).getD []) anth.papers [] hnd q hq
    rw [h]
    simp [hr]
  · intro g f r h
    rcases dget2_foldl_mem (fun q => q.2.top_level_id) (fun q => q.2.full_id)
      (fun q => (build_paper_record anth.people q.2).getD []) anth.papers [] g f r h
      with hc | hc
    · obtain ⟨q, hq, hg, hf, hv⟩ := hc
      refine ⟨q, hq, hg, hf, ?_⟩
      obtain ⟨r2, hr2⟩ := Option.isSome_iff_exists.1 (hall q hq)
      simp only [hr2, Option.getD_some] at hv
      rw [hr2, hv]
    · simp [dget2, dget] at hc
  · have h := isize_foldl (fun q => q.2.top_level_id) (fun q => q.2.full_id)
      (fun q => (build_paper_record anth.people q.2).getD []) anth.papers [] hnd
      (by intro x hx hmem; simp [innerKeys] at hmem)
    simpa [isize] using h

/-- A small concrete object graph used to instantiate the theorems: one
canonical author, one paper, one volume, one venue, one SIG. -/
def jane : PName := ⟨"Jane", "Doe"⟩

def samplePaper : Paper :=
  { top_level_id := "2020.acl"
    full_id := "2020.acl-main.1"
    attrib := [("xml_title", Val.str "Example Paper"), ("year", Val.nat 2020),
      ("author", Val.names [jane])]
    title_html := "Example Paper"
    booktitle_html := ""
    abstract_html := "" }

def samplePeople : PeopleIndex :=
  { name_list := [jane]
    slugs := [(jane, "jane-doe")]
    canonicals := [jane]
    papers_of := [(jane, ["2020.acl-main.1"])]
    coauthors_of := []
    venues_of := []
    variants_of := []
    canonical_of := [] }

def sampleVolume : Volume :=
  { full_id := "2020.acl-main"
    attrib := [("xml_title", Val.str "Proceedings"), ("year", Val.nat 2020)]
    title_html := "Proceedings"
    paper_ids := ["2020.acl-main.1"] }

def sampleSig : Sig :=
  { name := "SIGSAMPLE"
    slug := "sigsample"
    url := "https://example.org"
    volumes_by_year := [(2020, ["2020.acl-main"])]
    years := [2020] }

def sampleAnth : Anthology :=
  { papers := [("2020.acl-main.1", samplePaper)]
    people := samplePeople
    volumes := [("2020.acl-main", sampleVolume)]
    venues := [("acl", [("name", Val.str "ACL"), ("years", Val.nats [2020]),
      ("volumes", Val.strs ["2020.acl-main"])])]
    sigs := [("sigsample", sampleSig)] }

def sampleIdx : List (String × List (String × Record)) :=
  (build_papers sampleAnth).getD []

/-- Witness for papers_grouping_total at the sample graph. -/
theorem papers_grouping_total_witness :
    ∃ r, build_paper_record sampleAnth.people samplePaper = some r ∧
      dget2 sampleIdx "2020.acl" "2020.acl-main.1" = some r :=
  (papers_grouping_total sampleAnth sampleIdx (by decide) (by decide)).1
    ("2020.acl-main.1", samplePaper) (by decide)

theorem dkeys_dset_nodup {α : Type} (d : List (String × α)) (k : String) (v : α)
    (h : (dkeys d).Nodup) : (dkeys (dset d k v)).Nodup := by
  induction d with
  | nil => simp [dset, dkeys]
  | cons p rest ih =>
      obtain ⟨k2, v2⟩ := p
      rw [show dkeys ((k2, v2) :: rest) = k2 :: dkeys rest from rfl,
        List.nodup_cons] at h
      by_cases h2 : k2 = k
      · subst h2
        simpa [dset, dkeys, List.nodup_cons] using h
      · rw [show dset ((k2, v2) :: rest) k v = (k2, v2) :: dset rest k v by
          simp [dset, h2]]
        rw [show dkeys ((k2, v2) :: dset rest k v) = k2 :: dkeys (dset rest k v)
          from rfl, List.nodup_cons]
        refine ⟨fun hmem => ?_, ih h.2⟩
        rcases mem_dkeys_dset rest k k2 v hmem with h3 | h3
        · exact h2 h3
        · exact h.1 h3

theorem dkeys_ddel_subset {α : Type} (d d2 : List (String × α)) (k k2 : String)
    (hdel : ddel d k = some d2) (h : k2 ∈ dkeys d2) : k2 ∈ dkeys d := by
  induction d generalizing d2 with
  | nil => simp [ddel] at hdel
  | cons p rest ih =>
      obtain ⟨k3, v3⟩ := p
      by_cases h3 : k3 = k
      · subst h3
        simp [ddel] at hdel
        subst hdel
        exact List.mem_cons_of_mem _ h
      · simp [ddel, h3] at hdel
        obtain ⟨r, hr, hd2⟩ := hdel
        subst hd2
        rw [show dkeys ((k3, v3) :: r) = k3 :: dkeys r from rfl] at h
        rcases List.mem_cons.1 h with h4 | h4
        · exact h4 ▸ List.mem_cons_self _ _
        · exact List.mem_cons_of_mem _ (ih r hr h4)

theorem dkeys_ddel_nodup {α : Type} (d d2 : List (String × α)) (k : String)
    (h : (dkeys d).Nodup) (hdel : ddel d k = some d2) : (dkeys d2).Nodup := by
  induction d generalizing d2 with
  | nil => simp [ddel] at hdel
  | cons p rest ih =>
      obtain ⟨k3, v3⟩ := p
      rw [show dkeys ((k3, v3) :: rest) = k3 :: dkeys rest from rfl,
        List.nodup_cons] at h
      by_cases h3 : k3 = k
      · subst h3
        simp [ddel] at hdel
        subst hdel
        exact h.2
      · simp [ddel, h3] at hdel
        obtain ⟨r, hr, hd2⟩ := hdel
        subst hd2
        rw [show dkeys ((k3, v3) :: r) = k3 :: dkeys r from rfl, List.nodup_cons]
        exact ⟨fun hmem => h.1 (dkeys_ddel_subset rest r k k3 hr hmem), ih r h.2 hr⟩

theorem resolve_names_cases (pe : PeopleIndex) (d d2 : Record) (k : String)
    (h : resolve_names pe d k = some d2) :
    (dget d k = none ∧ d2 = d) ∨
      ∃ ns slugs, dget d k = some (Val.names ns) ∧
        mapOpt pe.get_slug ns = some slugs ∧ d2 = dset d k (Val.strs slugs) := by
  unfold resolve_names at h
  cases hd : dget d k with
  | none =>
      rw [hd] at h
      simp at h
      exact Or.inl ⟨rfl, h.symm⟩
  | some v =>
      rw [hd] at h
      cases v with
      | names ns =>
          simp only [Option.map_eq_some'] at h
          obtain ⟨slugs, hs, hd2⟩ := h
          exact Or.inr ⟨ns, slugs, rfl, hs, hd2.symm⟩
      | str v => simp at h
      | nat v => simp at h
      | strs v => simp at h
      | nats v => simp at h
      | pairs v => simp at h
      | ymap v => simp at h

theorem dget_resolve_names_ne (pe : PeopleIndex) (d d2 : Record) (k k2 : String)
    (h : resolve_names pe d k = some d2) (hk : k ≠ k2) :
    dget d2 k2 = dget d k2 := by
  rcases resolve_names_cases pe d d2 k h with ⟨_, rfl⟩ | ⟨ns, slugs, _, _, rfl⟩
  · rfl
  · exact dget_dset_ne d k k2 _ hk

theorem dkeys_resolve_names_nodup (pe : PeopleIndex) (d d2 : Record) (k : String)
    (h : resolve_names pe d k = some d2) (hnd : (dkeys d).Nodup) :
    (dkeys d2).Nodup := by
  rcases resolve_names_cases pe d d2 k h with ⟨_, rfl⟩ | ⟨ns, slugs, _, _, rfl⟩
  · exact hnd
  · exact dkeys_dset_nodup d k _ hnd

/-- Inversion of a successful paper-record build into its five stages. -/
theorem build_paper_record_inv (pe : PeopleIndex) (p : Paper) (r : Record)
    (h : build_paper_record pe p = some r) :
    ∃ d1 d2 d3 d4,
      ddel (dset p.attrib "title_html" (Val.str p.title_html)) "xml_title" = some d1 ∧
      html_variant_step d1 "xml_booktitle" "booktitle_html" p.booktitle_html = some d2 ∧
      html_variant_step d2 "xml_abstract" "abstract_html" p.abstract_html = some d3 ∧
      resolve_names pe d3 "author" = some d4 ∧
      resolve_names pe d4 "editor" = some r := by
  unfold build_paper_record Paper.as_dict at h
  simp only [Option.bind_eq_bind, Option.bind_eq_some, Option.pure_def,
    Option.some_inj] at h
  obtain ⟨d1, h1, d2, h2, d3, h3, d4, h4, d5, h5, hr⟩ := h
  subst hr
  exact ⟨d1, d2, d3, d4, h1, h2, h3, h4, h5⟩

theorem dget_html_variant_step_ne (d d2 : Record) (raw html rendered k2 : String)
    (h : html_variant_step d raw html rendered = some d2)
    (h1 : raw ≠ k2) (h2 : html ≠ k2) : dget d2 k2 = dget d k2 := by
  unfold html_variant_step at h
  by_cases hc : (dget d raw).isSome
  · rw [if_pos hc] at h
    rw [dget_ddel_ne _ _ _ _ h h1, dget_dset_ne _ _ _ _ h2]
  · rw [if_neg hc] at h
    simp at h
    subst h
    rfl

theorem dkeys_html_variant_step_nodup (d d2 : Record) (raw html rendered : String)
    (h : html_variant_step d raw html rendered = some d2)
    (hnd : (dkeys d).Nodup) : (dkeys d2).Nodup := by
  unfold html_variant_step at h
  by_cases hc : (dget d raw).isSome
  · rw [if_pos hc] at h
    exact dkeys_ddel_nodup _ _ _ (dkeys_dset_nodup d html _ hnd) h
  · rw [if_neg hc] at h
    simp at h
    subst h
    exact hnd

theorem html_variant_step_present (d d2 : Record) (raw html rendered : String)
    (h : html_variant_step d raw html rendered = some d2)
    (hp : (dget d raw).isSome) (hnd : (dkeys d).Nodup) (hne : raw ≠ html) :
    dget d2 html = some (Val.str rendered) ∧ dget d2 raw = none := by
  unfold html_variant_step at h
  rw [if_pos hp] at h
  exact ⟨by rw [dget_ddel_ne _ _ _ _ h hne, dget_dset_self],
    dget_ddel_self _ _ _ (dkeys_dset_nodup d html _ hnd) h⟩

theorem dget_del_if_present_ne (d d2 : Record) (k k2 : String)
    (h : del_if_present d k = some d2) (hne : k ≠ k2) : dget d2 k2 = dget d k2 := by
  unfold del_if_present at h
  by_cases hc : (dget d k).isSome
  · rw [if_pos hc] at h
    exact dget_ddel_ne _ _ _ _ h hne
  · rw [if_neg hc] at h
    simp at h
    subst h
    rfl

theorem dget_del_if_present_self (d d2 : Record) (k : String)
    (h : del_if_present d k = some d2) (hnd : (dkeys d).Nodup) :
    dget d2 k = none := by
  unfold del_if_present at h
  by_cases hc : (dget d k).isSome
  · rw [if_pos hc] at h
    exact dget_ddel_self _ _ _ hnd h
  · rw [if_neg hc] at h
    simp at h
    subst h
    exact Option.not_isSome_iff_eq_none.1 hc

theorem dkeys_del_if_present_nodup (d d2 : Record) (k : String)
    (h : del_if_present d k = some d2) (hnd : (dkeys d).Nodup) :
    (dkeys d2).Nodup := by
  unfold del_if_present at h
  by_cases hc : (dget d k).isSome
  · rw [if_pos hc] at h
    exact dkeys_ddel_nodup _ _ _ hnd h
  · rw [if_neg hc] at h
    simp at h
    subst h
    exact hnd

/-- C7: Every built paper record carries title_html with the raw xml_title
key removed; a present raw booktitle or abstract key yields the html variant
with the raw key removed; author and editor name lists are replaced by their
slugs in order; and the record is stored under the paper's top-level group
and full id. -/
theorem paper_export_record (anth : Anthology)
    (idx : List (String × List (String × Record))) (q : String × Paper)
    (hnd : (anth.papers.map (fun p => p.2.full_id)).Nodup)
    (hk : (dkeys q.2.attrib).Nodup)
    (hb : build_papers anth = some idx) (hq : q ∈ anth.papers) :
    ∃ r, dget2 idx q.2.top_level_id q.2.full_id = some r ∧
      dget r "title_html" = some (Val.str q.2.title_html) ∧
      dget r "xml_title" = none ∧
      ((dget q.2.attrib "xml_booktitle").isSome →
        dget r "booktitle_html" = some (Val.str q.2.booktitle_html) ∧
        dget r "xml_booktitle" = none) ∧
      ((dget q.2.attrib "xml_abstract").isSome →
        dget r "abstract_html" = some (Val.str q.2.abstract_html) ∧
        dget r "xml_abstract" = none) ∧
      (∀ ns, dget q.2.attrib "author" = some (Val.names ns) →
        ∃ slugs, List.Forall₂ (fun nm s => anth.people.get_slug nm = some s) ns slugs ∧
          dget r "author" = some (Val.strs slugs)) ∧
      (∀ ns, dget q.2.attrib "editor" = some (Val.names ns) →
        ∃ slugs, List.Forall₂ (fun nm s => anth.people.get_slug nm = some s) ns slugs ∧
          dget r "editor" = some (Val.strs slugs)) := by
  obtain ⟨r, hbpr, hplace⟩ := (papers_grouping_total anth idx hnd hb).1 q hq
  obtain ⟨d1, d2, d3, d4, h1, h2, h3, h4, h5⟩ := build_paper_record_inv _ _ _ hbpr
  have hnd0 : (dkeys (dset q.2.attrib "title_html" (Val.str q.2.title_html))).Nodup :=
    dkeys_dset_nodup _ _ _ hk
  have hnd1 : (dkeys d1).Nodup := dkeys_ddel_nodup _ _ _ hnd0 h1
  have tr1 : ∀ k2, "xml_title" ≠ k2 → "title_html" ≠ k2 →
      dget d1 k2 = dget q.2.attrib k2 := by
    intro k2 hx ht
    rw [dget_ddel_ne _ _ _ _ h1 hx, dget_dset_ne _ _ _ _ ht]
  have tr2 : ∀ k2, "xml_booktitle" ≠ k2 → "booktitle_html" ≠ k2 →
      dget d2 k2 = dget d1 k2 :=
    fun k2 ha hb2 => dget_html_variant_step_ne _ _ _ _ _ _ h2 ha hb2
  have tr3 : ∀ k2, "xml_abstract" ≠ k2 → "abstract_html" ≠ k2 →
      dget d3 k2 = dget d2 k2 :=
    fun k2 ha hb2 => dget_html_variant_step_ne _ _ _ _ _ _ h3 ha hb2
  have tr4 : ∀ k2, "author" ≠ k2 → dget d4 k2 = dget d3 k2 :=
    fun k2 ha => dget_resolve_names_ne _ _ _ _ _ h4 ha
  have tr5 : ∀ k2, "editor" ≠ k2 → dget r k2 = dget d4 k2 :=
    fun k2 ha => dget_resolve_names_ne _ _ _ _ _ h5 ha
  refine ⟨r, hplace, ?_, ?_, ?_, ?_, ?_, ?_⟩
  · rw [tr5 _ (by decide), tr4 _ (by decide), tr3 _ (by decide) (by decide),
      tr2 _ (by decide) (by decide), dget_ddel_ne _ _ _ _ h1 (by decide),
      dget_dset_self]
  · rw [tr5 _ (by decide), tr4 _ (by decide), tr3 _ (by decide) (by decide),
      tr2 _ (by decide) (by decide)]
    exact dget_ddel_self _ _ _ hnd0 h1
  · intro hp
    have hp1 : (dget d1 "xml_booktitle").isSome := by
      rw [tr1 _ (by decide) (by decide)]
      exact hp
    obtain ⟨c1, c2⟩ := html_variant_step_present _ _ _ _ _ h2 hp1 hnd1 (by decide)
    refine ⟨?_, ?_⟩
    · rw [tr5 _ (by decide), tr4 _ (by decide), tr3 _ (by decide) (by decide)]
      exact c1
    · rw [tr5 _ (by decide), tr4 _ (by decide), tr3 _ (by decide) (by decide)]
      exact c2
  · intro hp
    have hnd2 : (dkeys d2).Nodup := dkeys_html_variant_step_nodup _ _ _ _ _ h2 hnd1
    have hp2 : (dget d2 "xml_abstract").isSome := by
      rw [tr2 _ (by decide) (by decide), tr1 _ (by decide) (by decide)]
      exact hp
    obtain ⟨c1, c2⟩ := html_variant_step_present _ _ _ _ _ h3 hp2 hnd2 (by decide)
    refine ⟨?_, ?_⟩
    · rw [tr5 _ (by decide), tr4 _ (by decide)]
      exact c1
    · rw [tr5 _ (by decide), tr4 _ (by decide)]
      exact c2
  · intro ns hns
    have ha3 : dget d3 "author" = some (Val.names ns) := by
      rw [tr3 _ (by decide) (by decide), tr2 _ (by decide) (by decide),
        tr1 _ (by decide) (by decide)]
      exact hns
    rcases resolve_names_cases _ _ _ _ h4 with ⟨hnone, _⟩ | ⟨ns2, slugs, heq, hmap, hd4⟩
    · rw [ha3] at hnone
      simp at hnone
    · rw [ha3] at heq
      simp only [Option.some_inj, Val.names.injEq] at heq
      subst heq
      refine ⟨slugs, mapOpt_some_forall2 _ _ _ hmap, ?_⟩
      rw [tr5 _ (by decide), hd4, dget_dset_self]
  · intro ns hns
    have he4 : dget d4 "editor" = some (Val.names ns) := by
      rw [tr4 _ (by decide), tr3 _ (by decide) (by decide),
        tr2 _ (by decide) (by decide), tr1 _ (by decide) (by decide)]
      exact hns
    rcases resolve_names_cases _ _ _ _ h5 with ⟨hnone, _⟩ | ⟨ns2, slugs, heq, hmap, hr⟩
    · rw [he4] at hnone
      simp at hnone
    · rw [he4] at heq
      simp only [Option.some_inj, Val.names.injEq] at heq
      subst heq
      exact ⟨slugs, mapOpt_some_forall2 _ _ _ hmap, by rw [hr, dget_dset_self]⟩

/-- Witness for paper_export_record: the scenario paper 2020.acl-main.1 in
group 2020.acl with author Jane Doe resolving to slug jane-doe. -/
theorem paper_export_record_witness :
    ∃ r, dget2 sampleIdx "2020.acl" "2020.acl-main.1" = some r ∧
      dget r "title_html" = some (Val.str "Example Paper") ∧
      dget r "xml_title" = none ∧
      dget r "author" = some (Val.strs ["jane-doe"]) := by
  obtain ⟨r, hplace, htitle, hxml, _, _, hauth, _⟩ :=
    paper_export_record sampleAnth sampleIdx ("2020.acl-main.1", samplePaper)
      (by decide) (by decide) (by decide) (by decide)
  obtain ⟨slugs, hf2, hr⟩ := hauth [jane] (by decide)
  cases hf2 with
  | cons h1 hrest =>
      cases hrest
      have hb : sampleAnth.people.get_slug jane = some "jane-doe" := by decide
      rw [hb] at h1
      injection h1 with h1
      subst h1
      exact ⟨r, hplace, htitle, hxml, hr⟩

/-- Inversion of a successful volume-loop body into its stages. -/
theorem volume_step_inv (pe : PeopleIndex) (v : Volume) (r : Record) (v2 : Volume)
    (h : volume_step pe v = some (r, v2)) :
    ∃ d1 d2 d3,
      ddel (dset v.attrib "title_html" (Val.str v.title_html)) "xml_title" = some d1 ∧
      del_if_present d1 "xml_abstract" = some d2 ∧
      resolve_names pe (dset d2 "papers" (Val.strs v.paper_ids)) "author" = some d3 ∧
      resolve_names pe d3 "editor" = some r ∧
      v2 = { v with attrib := r } := by
  unfold volume_step at h
  simp only [Option.bind_eq_bind, Option.bind_eq_some, Option.pure_def,
    Option.some_inj] at h
  obtain ⟨d1, h1, d2, h2, d3, h3, d4, h4, heq⟩ := h
  rw [Prod.mk.injEq] at heq
  obtain ⟨hr, hv2⟩ := heq
  subst hr
  exact ⟨d1, d2, d3, h1, h2, h3, h4, hv2.symm⟩

/-- C8: Every built volume record gains title_html and loses the raw
xml_title key; a raw xml_abstract key is removed with no abstract_html added
(the volume/paper asymmetry); the papers field is the volume's ordered
paper-id list; and author/editor name lists are resolved to slugs in order. -/
theorem volume_export_record (pe : PeopleIndex) (v : Volume) (r : Record)
    (v2 : Volume) (hk : (dkeys v.attrib).Nodup)
    (h : volume_step pe v = some (r, v2)) :
    dget r "title_html" = some (Val.str v.title_html) ∧
    dget r "xml_title" = none ∧
    dget r "xml_abstract" = none ∧
    ("abstract_html" ∉ dkeys v.attrib → dget r "abstract_html" = none) ∧
    dget r "papers" = some (Val.strs v.paper_ids) ∧
    (∀ ns, dget v.attrib "author" = some (Val.names ns) →
      ∃ slugs, List.Forall₂ (fun nm s => pe.get_slug nm = some s) ns slugs ∧
        dget r "author" = some (Val.strs slugs)) ∧
    (∀ ns, dget v.attrib "editor" = some (Val.names ns) →
      ∃ slugs, List.Forall₂ (fun nm s => pe.get_slug nm = some s) ns slugs ∧
        dget r "editor" = some (Val.strs slugs)) := by
  obtain ⟨d1, d2, d3, h1, h2, h3, h4, hv2⟩ := volume_step_inv pe v r v2 h
  have hnd0 : (dkeys (dset v.attrib "title_html" (Val.str v.title_html))).Nodup :=
    dkeys_dset_nodup _ _ _ hk
  have hnd1 : (dkeys d1).Nodup := dkeys_ddel_nodup _ _ _ hnd0 h1
  have tr1 : ∀ k2, "xml_title" ≠ k2 → "title_html" ≠ k2 →
      dget d1 k2 = dget v.attrib k2 := by
    intro k2 hx ht
    rw [dget_ddel_ne _ _ _ _ h1 hx, dget_dset_ne _ _ _ _ ht]
  have tr2 : ∀ k2, "xml_abstract" ≠ k2 → dget d2 k2 = dget d1 k2 :=
    fun k2 ha => dget_del_if_present_ne _ _ _ _ h2 ha
  have trB : ∀ k2, "papers" ≠ k2 →
      dget (dset d2 "papers" (Val.strs v.paper_ids)) k2 = dget d2 k2 :=
    fun k2 ha => dget_dset_ne _ _ _ _ ha
  have tr3 : ∀ k2, "author" ≠ k2 →
      dget d3 k2 = dget (dset d2 "papers" (Val.strs v.paper_ids)) k2 :=
    fun k2 ha => dget_resolve_names_ne _ _ _ _ _ h3 ha
  have tr4 : ∀ k2, "editor" ≠ k2 → dget r k2 = dget d3 k2 :=
    fun k2 ha => dget_resolve_names_ne _ _ _ _ _ h4 ha
  refine ⟨?_, ?_, ?_, ?_, ?_, ?_, ?_⟩
  · rw [tr4 _ (by decide), tr3 _ (by decide), trB _ (by decide),
      tr2 _ (by decide), dget_ddel_ne _ _ _ _ h1 (by decide), dget_dset_self]
  · rw [tr4 _ (by decide), tr3 _ (by decide), trB _ (by decide),
      tr2 _ (by decide)]
    exact dget_ddel_self _ _ _ hnd0 h1
  · rw [tr4 _ (by decide), tr3 _ (by decide), trB _ (by decide)]
    exact dget_del_if_present_self _ _ _ h2 hnd1
  · intro habs
    rw [tr4 _ (by decide), tr3 _ (by decide), trB _ (by decide),
      tr2 _ (by decide), tr1 _ (by decide) (by decide)]
    exact dget_eq_none_of_not_mem _ _ habs
  · rw [tr4 _ (by decide), tr3 _ (by decide), dget_dset_self]
  · intro ns hns
    have haB : dget (dset d2 "papers" (Val.strs v.paper_ids)) "author" =
        some (Val.names ns) := by
      rw [trB _ (by decide), tr2 _ (by decide), tr1 _ (by decide) (by decide)]
      exact hns
    rcases resolve_names_cases _ _ _ _ h3 with ⟨hnone, _⟩ | ⟨ns2, slugs, heq, hmap, hd3⟩
    · rw [haB] at hnone
      simp at hnone
    · rw [haB] at heq
      simp only [Option.some_inj, Val.names.injEq] at heq
      subst heq
      refine ⟨slugs, mapOpt_some_forall2 _ _ _ hmap, ?_⟩
      rw [tr4 _ (by decide), hd3, dget_dset_self]
  · intro ns hns
    have he3 : dget d3 "editor" = some (Val.names ns) := by
      rw [tr3 _ (by decide), trB _ (by decide), tr2 _ (by decide),
        tr1 _ (by decide) (by decide)]
      exact hns
    rcases resolve_names_cases _ _ _ _ h4 with ⟨hnone, _⟩ | ⟨ns2, slugs, heq, hmap, hr⟩
    · rw [he3] at hnone
      simp at hnone
    · rw [he3] at heq
      simp only [Option.some_inj, Val.names.injEq] at heq
      subst heq
      exact ⟨slugs, mapOpt_some_forall2 _ _ _ hmap, by rw [hr, dget_dset_self]⟩

def sampleVolRec : Record :=
  ((volume_step samplePeople sampleVolume).getD ([], sampleVolume)).1

def sampleVolPost : Volume :=
  ((volume_step samplePeople sampleVolume).getD ([], sampleVolume)).2

/-- Witness for volume_export_record at the sample volume. -/
theorem volume_export_record_witness :
    dget sampleVolRec "title_html" = some (Val.str "Proceedings") ∧
    dget sampleVolRec "xml_title" = none ∧
    dget sampleVolRec "xml_abstract" = none ∧
    dget sampleVolRec "abstract_html" = none ∧
    dget sampleVolRec "papers" = some (Val.strs ["2020.acl-main.1"]) := by
  obtain ⟨a, b, c, d, e, _, _⟩ :=
    volume_export_record samplePeople sampleVolume sampleVolRec sampleVolPost
      (by decide) (by decide)
  exact ⟨a, b, c, d (by decide), e⟩

/-- C5: The record of a non-canonical (variant) name carries canonical_entry,
the slug of its canonical representative, and none of the aggregate fields
papers, coauthors, venues or variant_entries. -/
theorem variant_person_record (anth : Anthology) (n : PName) (slug : String)
    (data : Record) (hvar : anth.people.is_canonical n = false)
    (h : person_record anth n slug = some data) :
    ∃ c cs, anth.people.get_canonical_variant n = some c ∧
      anth.people.get_slug c = some cs ∧
      dget data "canonical_entry" = some (Val.str cs) ∧
      dget data "papers" = none ∧
      dget data "coauthors" = none ∧
      dget data "venues" = none ∧
      dget data "variant_entries" = none := by
  unfold person_record at h
  rw [hvar] at h
  simp only [Bool.false_eq_true, if_false, Option.bind_eq_bind,
    Option.bind_eq_some, Option.pure_def, Option.some_inj] at h
  obtain ⟨c, hc, cs, hcs, heq⟩ := h
  subst heq
  refine ⟨c, cs, hc, hcs, dget_dset_self _ _ _, ?_, ?_, ?_, ?_⟩
  · rw [dget_dset_ne _ _ _ _ (by decide), dget_dset_ne _ _ _ _ (by decide)]
    rfl
  · rw [dget_dset_ne _ _ _ _ (by decide), dget_dset_ne _ _ _ _ (by decide)]
    rfl
  · rw [dget_dset_ne _ _ _ _ (by decide), dget_dset_ne _ _ _ _ (by decide)]
    rfl
  · rw [dget_dset_ne _ _ _ _ (by decide), dget_dset_ne _ _ _ _ (by decide)]
    rfl

/-- A variant registration: J. Doe is a variant of the canonical Jane Doe. -/
def jdoe : PName := ⟨"J.", "Doe"⟩

def sampleVarPeople : PeopleIndex :=
  { name_list := [jane, jdoe]
    slugs := [(jane, "jane-doe"), (jdoe, "j-doe")]
    canonicals := [jane]
    papers_of := [(jane, ["2020.acl-main.1"])]
    coauthors_of := []
    venues_of := []
    variants_of := [(jane, [jdoe])]
    canonical_of := [(jdoe, jane)] }

def sampleVarAnth : Anthology :=
  { papers := [("2020.acl-main.1", samplePaper)]
    people := sampleVarPeople
    volumes := []
    venues := []
    sigs := [] }

def sampleVarData : Record :=
  (person_record sampleVarAnth jdoe "j-doe").getD []

/-- Witness for variant_person_record at the variant J. Doe. -/
theorem variant_person_record_witness :
    ∃ c cs, sampleVarAnth.people.get_canonical_variant jdoe = some c ∧
      sampleVarAnth.people.get_slug c = some cs ∧
      dget sampleVarData "canonical_entry" = some (Val.str cs) ∧
      dget sampleVarData "papers" = none ∧
      dget sampleVarData "coauthors" = none ∧
      dget sampleVarData "venues" = none ∧
      dget sampleVarData "variant_entries" = none :=
  variant_person_record sampleVarAnth jdoe "j-doe" sampleVarData
    (by decide) (by decide)

/-- Pointwise content of the keyed (paper id, year) list built as the sort
input on source line 84. -/
theorem keyed_papers_spec (anth : Anthology) (ps : List String)
    (keyed : List (String × Nat))
    (h : mapOpt (fun p => (paper_year anth p).map (fun y => (p, y))) ps =
      some keyed) :
    keyed.map (fun q => q.1) = ps ∧
      ∀ q ∈ keyed, paper_year anth q.1 = some q.2 := by
  have hf := mapOpt_some_forall2 _ _ _ h
  clear h
  induction hf with
  | nil => exact ⟨rfl, by simp⟩
  | cons h1 hrest ih =>
      simp only [Option.map_eq_some'] at h1
      obtain ⟨y, hy, hq⟩ := h1
      subst hq
      refine ⟨by simp [ih.1], ?_⟩
      intro q hq
      rcases List.mem_cons.1 hq with h2 | h2
      · subst h2
        exact hy
      · exact ih.2 q h2

/-- C4: A canonical name's papers field lists all paper ids of its identity
cluster, sorted by descending publication year, with a stable order on
equal-year entries (they keep the enumeration order of get_papers), and its
length equals the number of papers attributed to the cluster. -/
theorem canonical_papers_sorted (anth : Anthology) (n : PName) (slug : String)
    (data : Record) (hcan : anth.people.is_canonical n = true)
    (h : person_record anth n slug = some data) :
    ∃ l keyed,
      mapOpt (fun p => (paper_year anth p).map (fun y => (p, y)))
        (anth.people.get_papers n) = some keyed ∧
      dget data "papers" = some (Val.strs l) ∧
      l = (pySortedRev (fun q => q.2) keyed).map (fun q => q.1) ∧
      l.Perm (anth.people.get_papers n) ∧
      l.length = (anth.people.get_papers n).length ∧
      List.Pairwise (fun a b =>
        (paper_year anth b).getD 0 ≤ (paper_year anth a).getD 0) l ∧
      (∀ y : Nat,
        l.filter (fun p => decide ((paper_year anth p).getD 0 = y)) =
          (anth.people.get_papers n).filter
            (fun p => decide ((paper_year anth p).getD 0 = y))) := by
  unfold person_record at h
  rw [hcan] at h
  simp only [if_true, Option.bind_eq_bind, Option.bind_eq_some, Option.pure_def,
    Option.some_inj] at h
  obtain ⟨keyed, hkeyed, co, hco, hrest⟩ := h
  obtain ⟨hfst, hyears⟩ := keyed_papers_spec anth _ keyed hkeyed
  set l := (pySortedRev (fun q : String × Nat => q.2) keyed).map (fun q => q.1)
    with hl
  have hd0 : dget (dset (dset (dset (dset n.as_dict "slug" (Val.str slug))
      "papers" (Val.strs l)) "coauthors"
      (Val.pairs (pySortedRev (fun q : String × Nat => q.2) co))) "venues"
      (Val.pairs (pySortedRev (fun q : String × Nat => q.2)
        (anth.people.get_venues n))))
      "papers" = some (Val.strs l) := by
    rw [dget_dset_ne _ _ _ _ (by decide), dget_dset_ne _ _ _ _ (by decide),
      dget_dset_self]
  have hget : dget data "papers" = some (Val.strs l) := by
    by_cases hv : anth.people.has_variants n
    · rw [if_pos hv, Option.bind_eq_some] at hrest
      obtain ⟨ve, hve, heq⟩ := hrest
      simp only [Option.some_inj] at heq
      subst heq
      rw [dget_dset_ne _ _ _ _ (by decide)]
      exact hd0
    · rw [if_neg hv, Option.some_inj] at hrest
      subst hrest
      exact hd0
  have hperm : l.Perm (anth.people.get_papers n) := by
    rw [hl, ← hfst]
    exact (pySortedRev_perm (fun q : String × Nat => q.2) keyed).map (fun q => q.1)
  have hmemk : ∀ q ∈ pySortedRev (fun q : String × Nat => q.2) keyed,
      paper_year anth q.1 = some q.2 := by
    intro q hq
    exact hyears q ((pySortedRev_perm (fun q : String × Nat => q.2) keyed).mem_iff.1 hq)
  refine ⟨l, keyed, hkeyed, hget, rfl, hperm, hperm.length_eq, ?_, ?_⟩
  · rw [hl, List.pairwise_map]
    refine List.Pairwise.imp_of_mem ?_ (pySortedRev_pairwise (fun q => q.2) keyed)
    intro a b ha hb hle
    rw [hmemk a ha, hmemk b hb]
    simpa using hle
  · intro y
    rw [hl, List.filter_map]
    have hcongr1 : (pySortedRev (fun q : String × Nat => q.2) keyed).filter
        ((fun p => decide ((paper_year anth p).getD 0 = y)) ∘ (fun q => q.1)) =
        (pySortedRev (fun q : String × Nat => q.2) keyed).filter
        (fun q => decide (q.2 = y)) := by
      refine List.filter_congr ?_
      intro q hq
      simp [hmemk q hq]
    have hcongr2 : keyed.filter (fun q => decide (q.2 = y)) =
        keyed.filter
          ((fun p => decide ((paper_year anth p).getD 0 = y)) ∘ (fun q => q.1)) := by
      refine (List.filter_congr ?_).symm
      intro q hq
      simp [hyears q hq]
    rw [hcongr1, pySortedRev_stable (fun q : String × Nat => q.2) keyed y, hcongr2,
      ← List.filter_map, hfst]

def samplePersonData : Record :=
  (person_record sampleAnth jane "jane-doe").getD []

/-- Witness for canonical_papers_sorted at the sample canonical author. -/
theorem canonical_papers_sorted_witness :
    dget samplePersonData "papers" = some (Val.strs ["2020.acl-main.1"]) := by
  obtain ⟨l, keyed, hk, hp, hl, _⟩ :=
    canonical_papers_sorted sampleAnth jane "jane-doe" samplePersonData
      (by decide) (by decide)
  have hk2 : mapOpt (fun p => (paper_year sampleAnth p).map (fun y => (p, y)))
      (sampleAnth.people.get_papers jane) = some [("2020.acl-main.1", 2020)] := by
    decide
  rw [hk2] at hk
  injection hk with hk
  subst hk
  have hl2 : (pySortedRev (fun q : String × Nat => q.2)
      [("2020.acl-main.1", 2020)]).map (fun q => q.1) = ["2020.acl-main.1"] := by
    decide
  rw [hl2] at hl
  subst hl
  exact hp

theorem filterOpt_some_inv {α : Type} (p : α → Option Bool) (l kept : List α)
    (h : filterOpt p l = some kept) :
    (∀ x ∈ l, (p x).isSome) ∧
      kept = l.filter (fun x => (p x).getD false) := by
  induction l generalizing kept with
  | nil =>
      simp [filterOpt] at h
      subst h
      exact ⟨by simp, rfl⟩
  | cons x xs ih =>
      simp only [filterOpt, Option.bind_eq_bind, Option.bind_eq_some,
        Option.pure_def, Option.some_inj] at h
      obtain ⟨b, hb, rest, hrest, hkept⟩ := h
      obtain ⟨hall, hr⟩ := ih rest hrest
      subst hkept
      refine ⟨fun z hz => ?_, ?_⟩
      · rcases List.mem_cons.1 hz with h2 | h2
        · subst h2
          simp [hb]
        · exact hall z h2
      · rw [List.filter_cons]
        cases b with
        | true => simp [hb, hr]
        | false => simp [hb, hr]

/-- Pointwise content of a successful keyed mapOpt (the year-to-list mapping
shape used by the venue loop). -/
theorem keyed_mapOpt_spec {α β : Type} (g : α → Option β) (xs : List α)
    (out : List (α × β))
    (h : mapOpt (fun x => (g x).map (fun y => (x, y))) xs = some out) :
    out.map (fun q => q.1) = xs ∧ ∀ q ∈ out, g q.1 = some q.2 := by
  have hf := mapOpt_some_forall2 _ _ _ h
  clear h
  induction hf with
  | nil => exact ⟨rfl, by simp⟩
  | cons h1 hrest ih =>
      simp only [Option.map_eq_some'] at h1
      obtain ⟨y, hy, hq⟩ := h1
      subst hq
      refine ⟨by simp [ih.1], ?_⟩
      intro q hq
      rcases List.mem_cons.1 hq with h2 | h2
      · subst h2
        exact hy
      · exact ih.2 q h2

/-- C6: A built venue record maps exactly the venue's active years, in
ascending order, each to the ascending-sorted list of exactly those of the
venue's volume ids whose stored year in the built volume index equals that
year; its years field is the ascending sorted year list; and the internal
volumes key is removed. -/
theorem venue_export_record (vidx : List (String × Record)) (d rec : Record)
    (ys : List Nat) (vs : List String)
    (hd : dget d "years" = some (Val.nats ys))
    (hv : dget d "volumes" = some (Val.strs vs))
    (hnd : (dkeys d).Nodup)
    (h : venue_entry vidx d = some rec) :
    ∃ vby : List (Nat × List String),
      dget rec "volumes_by_year" = some (Val.ymap vby) ∧
      vby.map (fun q => q.1) = pySorted (fun y => y) ys ∧
      (vby.map (fun q => q.1)).Perm ys ∧
      List.Pairwise (fun a b => a ≤ b) (vby.map (fun q => q.1)) ∧
      (∀ q ∈ vby, List.Pairwise (fun a b : String => a ≤ b) q.2 ∧
        (∀ k, k ∈ q.2 ↔ (k ∈ vs ∧ ∃ r2, dget vidx k = some r2 ∧
          dget r2 "year" = some (Val.nat q.1)))) ∧
      dget rec "years" = some (Val.nats (pySorted (fun y => y) ys)) ∧
      List.Pairwise (fun a b => a ≤ b) (pySorted (fun y : Nat => y) ys) ∧
      (pySorted (fun y : Nat => y) ys).Perm ys ∧
      dget rec "volumes" = none := by
  unfold venue_entry at h
  rw [hd, hv] at h
  simp only [Option.bind_eq_bind, Option.bind_eq_some] at h
  obtain ⟨ys2, hys2, vs2, hvs2, vby, hvby, hdel⟩ := h
  injection hys2 with hys2
  subst hys2
  injection hvs2 with hvs2
  subst hvs2
  obtain ⟨hfst, hval⟩ := keyed_mapOpt_spec
    (fun y => venue_volumes_for_year vidx vs y) (pySorted (fun y => y) ys) vby hvby
  have hndB : (dkeys (dset (dset d "volumes_by_year" (Val.ymap vby)) "years"
      (Val.nats (pySorted (fun y => y) ys)))).Nodup :=
    dkeys_dset_nodup _ _ _ (dkeys_dset_nodup _ _ _ hnd)
  refine ⟨vby, ?_, hfst, ?_, ?_, ?_, ?_, ?_, ?_, ?_⟩
  · rw [dget_ddel_ne _ _ _ _ hdel (by decide), dget_dset_ne _ _ _ _ (by decide),
      dget_dset_self]
  · rw [hfst]
    exact pySorted_perm (fun y => y) ys
  · rw [hfst]
    exact pySorted_pairwise (fun y => y) ys
  · intro q hq
    have hvv := hval q hq
    unfold venue_volumes_for_year at hvv
    simp only [Option.bind_eq_bind, Option.bind_eq_some, Option.pure_def,
      Option.some_inj] at hvv
    obtain ⟨kept, hkept, hq2⟩ := hvv
    obtain ⟨hall, hkeptEq⟩ := filterOpt_some_inv _ vs kept hkept
    rw [← hq2]
    refine ⟨pySorted_pairwise (fun s => s) kept, ?_⟩
    intro k
    rw [(pySorted_perm (fun s : String => s) kept).mem_iff, hkeptEq,
      List.mem_filter]
    constructor
    · rintro ⟨hkvs, htest⟩
      refine ⟨hkvs, ?_⟩
      cases hvk : dget vidx k with
      | none => simp [hvk] at htest
      | some r2 =>
          simp only [hvk] at htest
          cases hyr : dget r2 "year" with
          | none => simp [hyr] at htest
          | some vv =>
              simp only [hyr] at htest
              cases vv with
              | nat nv =>
                  simp only [Option.getD_some] at htest
                  have hny : nv = q.1 := by simpa using htest
                  subst hny
                  exact ⟨r2, rfl, hyr⟩
              | str v => simp at htest
              | strs v => simp at htest
              | nats v => simp at htest
              | names v => simp at htest
              | pairs v => simp at htest
              | ymap v => simp at htest
    · rintro ⟨hkvs, r2, hvk, hyr⟩
      refine ⟨hkvs, ?_⟩
      simp [hvk, hyr]
  · rw [dget_ddel_ne _ _ _ _ hdel (by decide), dget_dset_self]
  · exact pySorted_pairwise (fun y => y) ys
  · exact pySorted_perm (fun y => y) ys
  · exact dget_ddel_self _ _ _ hndB hdel

def sampleVolIdx : List (String × Record) :=
  ((build_volumes sampleAnth).getD ([], [])).1

def sampleVenueData : Record :=
  [("name", Val.str "ACL"), ("years", Val.nats [2020]),
   ("volumes", Val.strs ["2020.acl-main"])]

def sampleVenueRec : Record :=
  (venue_entry sampleVolIdx sampleVenueData).getD []

/-- Witness for venue_export_record at the sample venue. -/
theorem venue_export_record_witness :
    ∃ vby : List (Nat × List String),
      dget sampleVenueRec "volumes_by_year" = some (Val.ymap vby) ∧
      vby.map (fun q => q.1) = pySorted (fun y => y) [2020] ∧
      (vby.map (fun q => q.1)).Perm [2020] ∧
      List.Pairwise (fun a b => a ≤ b) (vby.map (fun q => q.1)) ∧
      (∀ q ∈ vby, List.Pairwise (fun a b : String => a ≤ b) q.2 ∧
        (∀ k, k ∈ q.2 ↔ (k ∈ ["2020.acl-main"] ∧ ∃ r2,
          dget sampleVolIdx k = some r2 ∧
          dget r2 "year" = some (Val.nat q.1)))) ∧
      dget sampleVenueRec "years" = some (Val.nats (pySorted (fun y => y) [2020])) ∧
      List.Pairwise (fun a b => a ≤ b) (pySorted (fun y : Nat => y) [2020]) ∧
      (pySorted (fun y : Nat => y) [2020]).Perm [2020] ∧
      dget sampleVenueRec "volumes" = none :=
  venue_export_record sampleVolIdx sampleVenueData sampleVenueRec [2020]
    ["2020.acl-main"] (by decide) (by decide) (by decide) (by decide)

/-- Inversion of one successful person slot: the bucket key is the slug's
first character, so the slug must be nonempty. -/
theorem person_entry_inv (anth : Anthology) (n : PName)
    (t : String × String × Record) (h : person_entry anth n = some t) :
    ∃ slug data c crest, anth.people.get_slug n = some slug ∧
      person_record anth n slug = some data ∧ slug.data = c :: crest ∧
      t = (String.mk [c], slug, data) := by
  unfold person_entry at h
  simp only [Option.bind_eq_bind, Option.bind_eq_some, Option.pure_def,
    Option.some_inj] at h
  obtain ⟨slug, hs, data, hdata, c, hc, ht⟩ := h
  cases hsd : slug.data with
  | nil =>
      rw [hsd] at hc
      simp at hc
  | cons c2 crest =>
      rw [hsd] at hc
      simp only [List.head?_cons, Option.some_inj] at hc
      subst hc
      exact ⟨slug, data, c2, crest, hs, hdata, hsd, ht.symm⟩

/-- A person slot fails outright when the slug is the empty string: slug[0]
raises IndexError. -/
theorem person_entry_empty_slug (anth : Anthology) (n : PName)
    (h : anth.people.get_slug n = some "") : person_entry anth n = none := by
  unfold person_entry
  rw [h]
  cases hrec : person_record anth n "" with
  | none => simp [hrec]
  | some data => simp [hrec]

/-- C10: Building the people index buckets each name by the first character
of its slug: under a successful build with pairwise-distinct slugs, every
name's record sits at people[slug[0]][slug] with a nonempty slug and the
index holds exactly one record per name; and any name whose slug is the
empty string makes the whole build fail with an indexing error. -/
theorem people_bucket_by_initial (anth : Anthology) :
    (∀ idx, build_people anth = some idx →
      (anth.people.names.map (fun n => (anth.people.get_slug n).getD "")).Nodup →
      (∀ n ∈ anth.people.names, ∃ slug data c crest,
        anth.people.get_slug n = some slug ∧
        person_record anth n slug = some data ∧
        slug.data = c :: crest ∧
        dget2 idx (String.mk [c]) slug = some data) ∧
      isize idx = anth.people.names.length) ∧
    (∀ n ∈ anth.people.names, anth.people.get_slug n = some "" →
      build_people anth = none) := by
  constructor
  · intro idx hb hnd
    unfold build_people at hb
    obtain ⟨hall, hidx⟩ := foldOpt_map_some (fun n => person_entry anth n)
      (fun i n t => dset2 i t.1 t.2.1 t.2.2) anth.people.names []
      idx ("", "", ([] : Record)) hb
    have hk2eq : ∀ n ∈ anth.people.names,
        ((person_entry anth n).getD ("", "", ([] : Record))).2.1 =
          (anth.people.get_slug n).getD "" := by
      intro n hn
      obtain ⟨t, ht⟩ := Option.isSome_iff_exists.1 (hall n hn)
      obtain ⟨slug, data, c, crest, hs, _, _, hteq⟩ := person_entry_inv anth n t ht
      rw [ht, hs, hteq]
      rfl
    have hnd2 : (anth.people.names.map
        (fun n => ((person_entry anth n).getD ("", "", ([] : Record))).2.1)).Nodup := by
      rw [List.map_congr_left hk2eq]
      exact hnd
    subst hidx
    constructor
    · intro n hn
      obtain ⟨t, ht⟩ := Option.isSome_iff_exists.1 (hall n hn)
      obtain ⟨slug, data, c, crest, hs, hdata, hsd, hteq⟩ := person_entry_inv anth n t ht
      refine ⟨slug, data, c, crest, hs, hdata, hsd, ?_⟩
      have h := dget2_foldl_self
        (fun n => ((person_entry anth n).getD ("", "", ([] : Record))).1)
        (fun n => ((person_entry anth n).getD ("", "", ([] : Record))).2.1)
        (fun n => ((person_entry anth n).getD ("", "", ([] : Record))).2.2)
        anth.people.names [] hnd2 n hn
      simp only [ht, Option.getD_some, hteq] at h
      exact h
    · have h := isize_foldl
        (fun n => ((person_entry anth n).getD ("", "", ([] : Record))).1)
        (fun n => ((person_entry anth n).getD ("", "", ([] : Record))).2.1)
        (fun n => ((person_entry anth n).getD ("", "", ([] : Record))).2.2)
        anth.people.names [] hnd2
        (by intro x hx hmem; simp [innerKeys] at hmem)
      simpa [isize] using h
  · intro n hn hslug
    unfold build_people
    exact foldOpt_map_eq_none (fun n => person_entry anth n)
      (fun i n t => dset2 i t.1 t.2.1 t.2.2) anth.people.names [] n hn
      (person_entry_empty_slug anth n hslug)

/-- A graph whose single name has an empty slug, for the failure half of the
bucketing claim. -/
def sampleEmptySlugAnth : Anthology :=
  { papers := []
    people :=
      { name_list := [jane]
        slugs := [(jane, "")]
        canonicals := [jane]
        papers_of := []
        coauthors_of := []
        venues_of := []
        variants_of := []
        canonical_of := [] }
    volumes := []
    venues := []
    sigs := [] }

def samplePeopleIdx : List (String × List (String × Record)) :=
  (build_people sampleAnth).getD []

/-- Witness for people_bucket_by_initial: the sample graph on the success
half, a one-name graph with an empty slug on the failure half. -/
theorem people_bucket_by_initial_witness :
    (∃ slug data c crest,
      sampleAnth.people.get_slug jane = some slug ∧
      person_record sampleAnth jane slug = some data ∧
      slug.data = c :: crest ∧
      dget2 samplePeopleIdx (String.mk [c]) slug = some data) ∧
    isize samplePeopleIdx = 1 ∧
    build_people sampleEmptySlugAnth = none := by
  obtain ⟨ha, hsize⟩ := (people_bucket_by_initial sampleAnth).1 samplePeopleIdx
    (by decide) (by decide)
  refine ⟨ha jane (by decide), hsize, ?_⟩
  exact (people_bucket_by_initial sampleEmptySlugAnth).2 jane (by decide) (by decide)

/-- Inversion of a successful export into its builds and effects. -/
theorem export_anthology_inv (anth : Anthology) (outdir : String)
    (existing : List String) (dryrun : Bool) (res : ExportResult)
    (h : export_anthology anth outdir existing dryrun = some res) :
    ∃ papers people vols venues,
      build_papers anth = some papers ∧
      build_people anth = some people ∧
      build_volumes anth = some vols ∧
      build_venues vols.1 anth.venues = some venues ∧
      res = { papers := papers, people := people, volumes := vols.1,
              venues := venues, sigs := build_sigs anth.sigs,
              post := { anth with volumes := vols.2 },
              effects := mkdir_effects outdir existing ++
                (if dryrun then [] else write_effects outdir papers people) } := by
  unfold export_anthology at h
  simp only [Option.bind_eq_bind, Option.bind_eq_some, Option.pure_def,
    Option.some_inj] at h
  obtain ⟨papers, hp, people, hpe, vols, hv, venues, hve, hres⟩ := h
  exact ⟨papers, people, vols, venues, hp, hpe, hv, hve, hres.symm⟩

/-- A throwaway volume value used only as an Option default in proofs. -/
def dfltVolume : Volume :=
  { full_id := "", attrib := [], title_html := "", paper_ids := [] }

theorem foldl_pair_snd {α β γ : Type} (f : β × List γ → α → β) (g : α → γ)
    (l : List α) (a : β) (b : List γ) :
    (l.foldl (fun acc x => (f acc x, acc.2 ++ [g x])) (a, b)).2 = b ++ l.map g := by
  induction l generalizing a b with
  | nil => simp
  | cons x xs ih =>
      rw [List.foldl_cons, ih]
      simp

/-- Second component of a successful build_volumes: the post-state volume
list, each input volume with its attribute dictionary replaced in place by
the built record. -/
theorem build_volumes_post (anth : Anthology)
    (vols : List (String × Record) × List (String × Volume))
    (h : build_volumes anth = some vols) :
    (∀ q ∈ anth.volumes, (volume_step anth.people q.2).isSome) ∧
      vols.2 = anth.volumes.map
        (fun q => (q.1, ((volume_step anth.people q.2).getD ([], dfltVolume)).2)) := by
  unfold build_volumes at h
  obtain ⟨hall, hidx⟩ := foldOpt_map_some (fun q => volume_step anth.people q.2)
    (fun acc q r => (dset acc.1 q.2.full_id r.1, acc.2 ++ [(q.1, r.2)]))
    anth.volumes ([], []) vols ([], dfltVolume) h
  refine ⟨hall, ?_⟩
  subst hidx
  have h2 := foldl_pair_snd
    (fun (acc : List (String × Record) × List (String × Volume)) q =>
      dset acc.1 q.2.full_id
        ((volume_step anth.people q.2).getD ([], dfltVolume)).1)
    (fun q : String × Volume =>
      (q.1, ((volume_step anth.people q.2).getD ([], dfltVolume)).2))
    anth.volumes [] []
  rw [List.nil_append] at h2
  exact h2

/-- C1 (amended): the export leaves papers, people, venues and SIGs
unchanged, but it does NOT leave volumes unchanged: the volume loop binds the
volume's attribute dictionary without copying, so after the export each
input volume's attrib has been replaced in place by the built volume record. -/
theorem export_frame_amended (anth : Anthology) (outdir : String)
    (existing : List String) (dryrun : Bool) (res : ExportResult)
    (h : export_anthology anth outdir existing dryrun = some res) :
    res.post.papers = anth.papers ∧
    res.post.people = anth.people ∧
    res.post.venues = anth.venues ∧
    res.post.sigs = anth.sigs ∧
    List.Forall₂ (fun (q q2 : String × Volume) => q2.1 = q.1 ∧
      volume_step anth.people q.2 = some (q2.2.attrib, q2.2))
      anth.volumes res.post.volumes := by
  obtain ⟨papers, people, vols, venues, hp, hpe, hv, hve, hres⟩ :=
    export_anthology_inv anth outdir existing dryrun res h
  subst hres
  obtain ⟨hall, hpost⟩ := build_volumes_post anth vols hv
  refine ⟨rfl, rfl, rfl, rfl, ?_⟩
  show List.Forall₂ _ anth.volumes vols.2
  rw [hpost, List.forall₂_map_right_iff, List.forall₂_same]
  intro q hq
  obtain ⟨r, hr⟩ := Option.isSome_iff_exists.1 (hall q hq)
  obtain ⟨rec, v2⟩ := r
  obtain ⟨_, _, _, _, _, _, _, hv2⟩ := volume_step_inv _ _ _ _ hr
  subst hv2
  refine ⟨rfl, ?_⟩
  simp only [hr, Option.getD_some]

def sampleExportDryrun : ExportResult :=
  (export_anthology sampleAnth "out" [] true).getD
    { papers := [], people := [], volumes := [], venues := [], sigs := [],
      post := sampleAnth, effects := [] }

/-- Counterexample to C1 as stated: at the sample graph the export succeeds
and the post-state volume list differs from the input volume list — the
sample volume's attribute dictionary was mutated in place. -/
theorem export_frame_counterexample :
    export_anthology sampleAnth "out" [] true = some sampleExportDryrun ∧
    sampleExportDryrun.post.volumes ≠ sampleAnth.volumes := by
  exact ⟨by decide, by decide⟩

/-- Witness for export_frame_amended at the sample graph. -/
theorem export_frame_amended_witness :
    sampleExportDryrun.post.papers = sampleAnth.papers ∧
    sampleExportDryrun.post.people = sampleAnth.people ∧
    sampleExportDryrun.post.venues = sampleAnth.venues ∧
    sampleExportDryrun.post.sigs = sampleAnth.sigs ∧
    List.Forall₂ (fun (q q2 : String × Volume) => q2.1 = q.1 ∧
      volume_step sampleAnth.people q.2 = some (q2.2.attrib, q2.2))
      sampleAnth.volumes sampleExportDryrun.post.volumes :=
  export_frame_amended sampleAnth "out" [] true sampleExportDryrun (by decide)

theorem mkdir_effects_no_write (outdir : String) (existing : List String)
    (p : String) : FsOp.write p ∉ mkdir_effects outdir existing := by
  intro hmem
  unfold mkdir_effects at hmem
  obtain ⟨sub, hsub, hop⟩ := List.mem_filterMap.1 hmem
  by_cases hc : existing.contains (outdir ++ "/" ++ sub)
  · simp [hc] at hop
  · simp [hc] at hop

/-- C2 (amended): with dryrun set the export performs no file write and its
record collections and post-state are exactly those of a non-dryrun export,
but it still creates the missing output directories (the mkdir loop runs
before the dryrun test). -/
theorem export_dryrun_amended (anth : Anthology) (outdir : String)
    (existing : List String) (res : ExportResult)
    (h : export_anthology anth outdir existing true = some res) :
    res.effects = mkdir_effects outdir existing ∧
    (∀ p, FsOp.write p ∉ res.effects) ∧
    (export_anthology anth outdir existing false).isSome ∧
    (∀ res2, export_anthology anth outdir existing false = some res2 →
      res2.papers = res.papers ∧ res2.people = res.people ∧
      res2.volumes = res.volumes ∧ res2.venues = res.venues ∧
      res2.sigs = res.sigs ∧ res2.post = res.post) := by
  obtain ⟨papers, people, vols, venues, hp, hpe, hv, hve, hres⟩ :=
    export_anthology_inv anth outdir existing true res h
  have heff : res.effects = mkdir_effects outdir existing := by
    rw [hres]
    simp
  refine ⟨heff, ?_, ?_, ?_⟩
  · intro p hmem
    rw [heff] at hmem
    exact mkdir_effects_no_write outdir existing p hmem
  · simp [export_anthology, hp, hpe, hv, hve]
  · intro res2 h2
    obtain ⟨papers2, people2, vols2, venues2, hp2, hpe2, hv2, hve2, hres2⟩ :=
      export_anthology_inv anth outdir existing false res2 h2
    rw [hp] at hp2
    rw [hpe] at hpe2
    rw [hv] at hv2
    injection hp2 with hp2
    injection hpe2 with hpe2
    injection hv2 with hv2
    subst hp2
    subst hpe2
    subst hv2
    rw [hve] at hve2
    injection hve2 with hve2
    subst hve2
    rw [hres, hres2]
    exact ⟨rfl, rfl, rfl, rfl, rfl, rfl⟩

/-- Counterexample to C2 as stated: with dryrun set and no pre-existing
directories the export still creates outdir and its papers and people
subdirectories. -/
theorem export_dryrun_counterexample :
    export_anthology sampleAnth "out" [] true = some sampleExportDryrun ∧
    sampleExportDryrun.effects =
      [FsOp.mkdir "out/", FsOp.mkdir "out/papers", FsOp.mkdir "out/people"] ∧
    sampleExportDryrun.effects ≠ [] := by
  exact ⟨by decide, by decide, by decide⟩

/-- Witness for export_dryrun_amended at the sample graph. -/
theorem export_dryrun_amended_witness :
    sampleExportDryrun.effects = mkdir_effects "out" [] ∧
    (∀ p, FsOp.write p ∉ sampleExportDryrun.effects) ∧
    (export_anthology sampleAnth "out" [] false).isSome ∧
    (∀ res2, export_anthology sampleAnth "out" [] false = some res2 →
      res2.papers = sampleExportDryrun.papers ∧
      res2.people = sampleExportDryrun.people ∧
      res2.volumes = sampleExportDryrun.volumes ∧
      res2.venues = sampleExportDryrun.venues ∧
      res2.sigs = sampleExportDryrun.sigs ∧
      res2.post = sampleExportDryrun.post) :=
  export_dryrun_amended sampleAnth "out" [] sampleExportDryrun (by decide)

/-- Well-formedness of an optional author/editor field: absent, or a name
list whose every name has a registered slug. -/
def names_field_ok (pe : PeopleIndex) (data : Record) (k : String) : Bool :=
  match dget data k with
  | none => true
  | some (Val.names ns) => ns.all (fun n => (pe.get_slug n).isSome)
  | some _ => false

/-- A paper the exporter can process: raw title present, author/editor
fields resolvable. -/
def paper_ok (pe : PeopleIndex) (p : Paper) : Bool :=
  (dget p.attrib "xml_title").isSome &&
    names_field_ok pe p.attrib "author" && names_field_ok pe p.attrib "editor"

/-- A name the exporter can process: slug registered and nonempty; a
canonical name needs resolvable cluster papers, coauthors and variants, a
variant needs a canonical representative with a slug. -/
def person_ok (anth : Anthology) (n : PName) : Bool :=
  match anth.people.get_slug n with
  | none => false
  | some s =>
      !s.data.isEmpty &&
        (if anth.people.is_canonical n then
          (anth.people.get_papers n).all (fun p => (paper_year anth p).isSome) &&
            (anth.people.get_coauthors n).all
              (fun q => (anth.people.get_slug q.1).isSome) &&
            (anth.people.get_registered_variants n).all
              (fun v => (anth.people.get_slug v).isSome)
        else
          match anth.people.get_canonical_variant n with
          | none => false
          | some c => (anth.people.get_slug c).isSome)

/-- A volume the exporter can process. -/
def volume_ok (pe : PeopleIndex) (v : Volume) : Bool :=
  (dget v.attrib "xml_title").isSome &&
    names_field_ok pe v.attrib "author" && names_field_ok pe v.attrib "editor"

/-- A venue the exporter can process against the built volume index: years
and volumes fields well-typed, and, when there is at least one active year,
every listed volume id resolving to a record with a year key. -/
def venue_ok (vidx : List (String × Record)) (d : Record) : Bool :=
  match dget d "years", dget d "volumes" with
  | some (Val.nats ys), some (Val.strs vs) =>
      ys.isEmpty || vs.all (fun k =>
        match dget vidx k with
        | some r => (dget r "year").isSome
        | none => false)
  | _, _ => false

/-- Internal consistency of the whole object graph: every entity the export
touches resolves. -/
def consistent_b (anth : Anthology) : Bool :=
  anth.papers.all (fun q => paper_ok anth.people q.2) &&
    anth.people.names.all (fun n => person_ok anth n) &&
    anth.volumes.all (fun q => volume_ok anth.people q.2) &&
    (match build_volumes anth with
     | some vols => anth.venues.all (fun q => venue_ok vols.1 q.2)
     | none => false)

theorem names_field_ok_congr (pe : PeopleIndex) (d d2 : Record) (k : String)
    (h : dget d2 k = dget d k) :
    names_field_ok pe d2 k = names_field_ok pe d k := by
  unfold names_field_ok
  rw [h]

theorem resolve_names_isSome (pe : PeopleIndex) (d : Record) (k : String)
    (h : names_field_ok pe d k = true) : (resolve_names pe d k).isSome := by
  unfold names_field_ok at h
  unfold resolve_names
  cases hd : dget d k with
  | none => simp
  | some v =>
      rw [hd] at h
      cases v with
      | names ns =>
          have hm := mapOpt_isSome pe.get_slug ns
            (fun a ha => List.all_eq_true.1 h a ha)
          obtain ⟨slugs, hs⟩ := Option.isSome_iff_exists.1 hm
          simp [hs]
      | str v => simp at h
      | nat v => simp at h
      | strs v => simp at h
      | nats v => simp at h
      | pairs v => simp at h
      | ymap v => simp at h

theorem html_variant_step_isSome (d : Record) (raw html rendered : String)
    (hne : raw ≠ html) : (html_variant_step d raw html rendered).isSome := by
  unfold html_variant_step
  by_cases hc : (dget d raw).isSome
  · rw [if_pos hc, ddel_isSome_iff, dget_dset_ne _ _ _ _ (fun hh => hne hh.symm)]
    exact hc
  · rw [if_neg hc]
    simp

theorem del_if_present_isSome (d : Record) (k : String) :
    (del_if_present d k).isSome := by
  unfold del_if_present
  by_cases hc : (dget d k).isSome
  · rw [if_pos hc, ddel_isSome_iff]
    exact hc
  · rw [if_neg hc]
    simp

theorem build_paper_record_isSome (pe : PeopleIndex) (p : Paper)
    (h : paper_ok pe p = true) : (build_paper_record pe p).isSome := by
  unfold paper_ok at h
  simp only [Bool.and_eq_true] at h
  obtain ⟨⟨ht, hau⟩, hed⟩ := h
  unfold build_paper_record Paper.as_dict
  have h1 : (ddel (dset p.attrib "title_html" (Val.str p.title_html))
      "xml_title").isSome := by
    rw [ddel_isSome_iff, dget_dset_ne _ _ _ _ (by decide)]
    exact ht
  obtain ⟨d1, hd1⟩ := Option.isSome_iff_exists.1 h1
  obtain ⟨d2, hd2⟩ := Option.isSome_iff_exists.1
    (html_variant_step_isSome d1 "xml_booktitle" "booktitle_html" p.booktitle_html
      (by decide))
  obtain ⟨d3, hd3⟩ := Option.isSome_iff_exists.1
    (html_variant_step_isSome d2 "xml_abstract" "abstract_html" p.abstract_html
      (by decide))
  have trau : dget d3 "author" = dget p.attrib "author" := by
    rw [dget_html_variant_step_ne _ _ _ _ _ _ hd3 (by decide) (by decide),
      dget_html_variant_step_ne _ _ _ _ _ _ hd2 (by decide) (by decide),
      dget_ddel_ne _ _ _ _ hd1 (by decide), dget_dset_ne _ _ _ _ (by decide)]
  have hau3 : names_field_ok pe d3 "author" = true := by
    rw [names_field_ok_congr pe p.attrib d3 "author" trau]
    exact hau
  obtain ⟨d4, hd4⟩ := Option.isSome_iff_exists.1 (resolve_names_isSome pe d3 "author" hau3)
  have tred : dget d4 "editor" = dget p.attrib "editor" := by
    rw [dget_resolve_names_ne _ _ _ _ _ hd4 (by decide),
      dget_html_variant_step_ne _ _ _ _ _ _ hd3 (by decide) (by decide),
      dget_html_variant_step_ne _ _ _ _ _ _ hd2 (by decide) (by decide),
      dget_ddel_ne _ _ _ _ hd1 (by decide), dget_dset_ne _ _ _ _ (by decide)]
  have hed4 : names_field_ok pe d4 "editor" = true := by
    rw [names_field_ok_congr pe p.attrib d4 "editor" tred]
    exact hed
  obtain ⟨d5, hd5⟩ := Option.isSome_iff_exists.1 (resolve_names_isSome pe d4 "editor" hed4)
  simp [hd1, hd2, hd3, hd4, hd5]

theorem volume_step_isSome (pe : PeopleIndex) (v : Volume)
    (h : volume_ok pe v = true) : (volume_step pe v).isSome := by
  unfold volume_ok at h
  simp only [Bool.and_eq_true] at h
  obtain ⟨⟨ht, hau⟩, hed⟩ := h
  unfold volume_step
  have h1 : (ddel (dset v.attrib "title_html" (Val.str v.title_html))
      "xml_title").isSome := by
    rw [ddel_isSome_iff, dget_dset_ne _ _ _ _ (by decide)]
    exact ht
  obtain ⟨d1, hd1⟩ := Option.isSome_iff_exists.1 h1
  obtain ⟨d2, hd2⟩ := Option.isSome_iff_exists.1 (del_if_present_isSome d1 "xml_abstract")
  have trau : dget (dset d2 "papers" (Val.strs v.paper_ids)) "author" =
      dget v.attrib "author" := by
    rw [dget_dset_ne _ _ _ _ (by decide),
      dget_del_if_present_ne _ _ _ _ hd2 (by decide),
      dget_ddel_ne _ _ _ _ hd1 (by decide), dget_dset_ne _ _ _ _ (by decide)]
  have hau3 : names_field_ok pe (dset d2 "papers" (Val.strs v.paper_ids))
      "author" = true := by
    rw [names_field_ok_congr pe v.attrib _ "author" trau]
    exact hau
  obtain ⟨d3, hd3⟩ := Option.isSome_iff_exists.1 (resolve_names_isSome pe _ "author" hau3)
  have tred : dget d3 "editor" = dget v.attrib "editor" := by
    rw [dget_resolve_names_ne _ _ _ _ _ hd3 (by decide),
      dget_dset_ne _ _ _ _ (by decide),
      dget_del_if_present_ne _ _ _ _ hd2 (by decide),
      dget_ddel_ne _ _ _ _ hd1 (by decide), dget_dset_ne _ _ _ _ (by decide)]
  have hed4 : names_field_ok pe d3 "editor" = true := by
    rw [names_field_ok_congr pe v.attrib d3 "editor" tred]
    exact hed
  obtain ⟨d4, hd4⟩ := Option.isSome_iff_exists.1 (resolve_names_isSome pe d3 "editor" hed4)
  simp [hd1, hd2, hd3, hd4]

theorem person_record_isSome (anth : Anthology) (n : PName) (s : String)
    (hok : person_ok anth n = true) : (person_record anth n s).isSome := by
  unfold person_ok at hok
  cases hs : anth.people.get_slug n with
  | none =>
      rw [hs] at hok
      simp at hok
  | some s2 =>
      rw [hs] at hok
      simp only [Bool.and_eq_true] at hok
      obtain ⟨hne, hbr⟩ := hok
      unfold person_record
      by_cases hc : anth.people.is_canonical n
      · rw [if_pos hc]
        rw [if_pos hc] at hbr
        simp only [Bool.and_eq_true] at hbr
        obtain ⟨⟨hpap, hco⟩, hva⟩ := hbr
        obtain ⟨keyed, hkeyed⟩ := Option.isSome_iff_exists.1
          (mapOpt_isSome (fun p => (paper_year anth p).map (fun y => (p, y)))
            (anth.people.get_papers n) (fun p hp => by
              simpa using List.all_eq_true.1 hpap p hp))
        obtain ⟨co, hco2⟩ := Option.isSome_iff_exists.1
          (mapOpt_isSome (fun q => (anth.people.get_slug q.1).map (fun t => (t, q.2)))
            (anth.people.get_coauthors n) (fun q hq => by
              simpa using List.all_eq_true.1 hco q hq))
        rw [hkeyed, hco2]
        simp only [Option.bind_eq_bind, Option.some_bind]
        by_cases hv : anth.people.has_variants n
        · rw [if_pos hv]
          obtain ⟨ve, hve⟩ := Option.isSome_iff_exists.1
            (mapOpt_isSome anth.people.get_slug
              (anth.people.get_registered_variants n)
              (fun v hv2 => List.all_eq_true.1 hva v hv2))
          simp [hve]
        · rw [if_neg hv]
          simp
      · rw [if_neg hc]
        rw [if_neg hc] at hbr
        cases hcv : anth.people.get_canonical_variant n with
        | none =>
            rw [hcv] at hbr
            simp at hbr
        | some c =>
            rw [hcv] at hbr
            obtain ⟨cs, hcs⟩ := Option.isSome_iff_exists.1 hbr
            simp [hcs]

theorem person_entry_isSome (anth : Anthology) (n : PName)
    (hok : person_ok anth n = true) : (person_entry anth n).isSome := by
  have hok2 := hok
  unfold person_ok at hok2
  cases hs : anth.people.get_slug n with
  | none =>
      rw [hs] at hok2
      simp at hok2
  | some s =>
      rw [hs] at hok2
      simp only [Bool.and_eq_true] at hok2
      obtain ⟨hne, _⟩ := hok2
      obtain ⟨data, hdata⟩ := Option.isSome_iff_exists.1
        (person_record_isSome anth n s hok)
      unfold person_entry
      cases hsd : s.data with
      | nil =>
          rw [hsd] at hne
          simp at hne
      | cons c crest => simp [hs, hdata, hsd]

theorem filterOpt_isSome {α : Type} (p : α → Option Bool) (l : List α)
    (h : ∀ x ∈ l, (p x).isSome) : (filterOpt p l).isSome := by
  induction l with
  | nil => simp [filterOpt]
  | cons x xs ih =>
      obtain ⟨b, hb⟩ := Option.isSome_iff_exists.1 (h x (List.mem_cons_self x xs))
      obtain ⟨rest, hrest⟩ := Option.isSome_iff_exists.1
        (ih (fun a ha => h a (List.mem_cons_of_mem x ha)))
      simp [filterOpt, hb, hrest]

theorem venue_test_isSome (vidx : List (String × Record)) (y : Nat) (k : String)
    (h : (match dget vidx k with
      | some r => (dget r "year").isSome
      | none => false) = true) :
    ((fun k2 => match dget vidx k2 with
      | none => none
      | some r =>
          match dget r "year" with
          | none => none
          | some (Val.nat yv) => some (yv == y)
          | some _ => some false) k).isSome := by
  cases hvk : dget vidx k with
  | none =>
      rw [hvk] at h
      exact absurd h (by simp)
  | some r =>
      have h2 : (dget r "year").isSome = true := by
        rw [hvk] at h
        exact h
      simp only [hvk]
      cases hyr : dget r "year" with
      | none =>
          rw [hyr] at h2
          simp at h2
      | some vv => cases vv <;> simp

theorem venue_volumes_for_year_isSome (vidx : List (String × Record))
    (vs : List String) (y : Nat)
    (hall : ∀ k ∈ vs, (match dget vidx k with
      | some r => (dget r "year").isSome
      | none => false) = true) :
    (venue_volumes_for_year vidx vs y).isSome := by
  unfold venue_volumes_for_year
  have hf := filterOpt_isSome (fun k2 =>
      match dget vidx k2 with
      | none => none
      | some r =>
          match dget r "year" with
          | none => none
          | some (Val.nat yv) => some (yv == y)
          | some _ => some false) vs
    (fun k hk => venue_test_isSome vidx y k (hall k hk))
  obtain ⟨kept, hkept⟩ := Option.isSome_iff_exists.1 hf
  simp [hkept]
theorem venue_entry_isSome (vidx : List (String × Record)) (d : Record)
    (hok : venue_ok vidx d = true) : (venue_entry vidx d).isSome := by
  unfold venue_ok at hok
  cases hy : dget d "years" with
  | none =>
      rw [hy] at hok
      exact absurd hok (by simp)
  | some vy =>
      rw [hy] at hok
      cases vy with
      | nats ys =>
          cases hv : dget d "volumes" with
          | none =>
              rw [hv] at hok
              exact absurd hok (by simp)
          | some vv =>
              rw [hv] at hok
              cases vv with
              | strs vs =>
                  have hmap : (mapOpt (fun y =>
                      (venue_volumes_for_year vidx vs y).map (fun l => (y, l)))
                      (pySorted (fun y => y) ys)).isSome := by
                    cases ys with
                    | nil => simp [pySorted, mapOpt]
                    | cons y0 ys0 =>
                        have hall : ∀ k ∈ vs, (match dget vidx k with
                            | some r => (dget r "year").isSome
                            | none => false) = true := by
                          have hok2 : vs.all (fun k =>
                              match dget vidx k with
                              | some r => (dget r "year").isSome
                              | none => false) = true := by
                            simpa using hok
                          exact fun k hk => List.all_eq_true.1 hok2 k hk
                        exact mapOpt_isSome _ _ (fun y2 hy2 => by
                          simpa using venue_volumes_for_year_isSome vidx vs y2 hall)
                  obtain ⟨vby, hvby⟩ := Option.isSome_iff_exists.1 hmap
                  unfold venue_entry
                  rw [hy, hv]
                  simp only [Option.bind_eq_bind, Option.some_bind, hvby]
                  rw [ddel_isSome_iff, dget_dset_ne _ _ _ _ (by decide),
                    dget_dset_ne _ _ _ _ (by decide), hv]
                  rfl
              | str v => exact absurd hok (by simp)
              | nat v => exact absurd hok (by simp)
              | nats v => exact absurd hok (by simp)
              | names v => exact absurd hok (by simp)
              | pairs v => exact absurd hok (by simp)
              | ymap v => exact absurd hok (by simp)
      | str v => exact absurd hok (by simp)
      | nat v => exact absurd hok (by simp)
      | strs v => exact absurd hok (by simp)
      | names v => exact absurd hok (by simp)
      | pairs v => exact absurd hok (by simp)
      | ymap v => exact absurd hok (by simp)

/-- A consistent object graph makes every build, and hence the export,
succeed: the indexer validates nothing of its own. -/
theorem export_isSome_of_consistent (anth : Anthology) (outdir : String)
    (existing : List String) (dryrun : Bool) (h : consistent_b anth = true) :
    (export_anthology anth outdir existing dryrun).isSome := by
  unfold consistent_b at h
  simp only [Bool.and_eq_true] at h
  obtain ⟨⟨⟨hpap, hppl⟩, hvol⟩, hven⟩ := h
  have hbv : (build_volumes anth).isSome := by
    unfold build_volumes
    exact foldOpt_map_isSome (fun q => volume_step anth.people q.2)
      (fun acc q r => (dset acc.1 q.2.full_id r.1, acc.2 ++ [(q.1, r.2)]))
      anth.volumes ([], [])
      (fun q hq => volume_step_isSome anth.people q.2 (List.all_eq_true.1 hvol q hq))
  obtain ⟨vols, hvols⟩ := Option.isSome_iff_exists.1 hbv
  rw [hvols] at hven
  have hven2 : ∀ q ∈ anth.venues, venue_ok vols.1 q.2 = true :=
    fun q hq => List.all_eq_true.1 hven q hq
  have hbp : (build_papers anth).isSome := by
    unfold build_papers
    exact foldOpt_map_isSome (fun q => build_paper_record anth.people q.2)
      (fun i q data => dset2 i q.2.top_level_id q.2.full_id data) anth.papers []
      (fun q hq => build_paper_record_isSome anth.people q.2
        (List.all_eq_true.1 hpap q hq))
  have hbpe : (build_people anth).isSome := by
    unfold build_people
    exact foldOpt_map_isSome (fun n => person_entry anth n)
      (fun i n t => dset2 i t.1 t.2.1 t.2.2) anth.people.names []
      (fun n hn => person_entry_isSome anth n (List.all_eq_true.1 hppl n hn))
  have hbve : (build_venues vols.1 anth.venues).isSome := by
    unfold build_venues
    exact foldOpt_map_isSome (fun q => venue_entry vols.1 q.2)
      (fun i q r => dset i q.1 r) anth.venues []
      (fun q hq => venue_entry_isSome vols.1 q.2 (hven2 q hq))
  obtain ⟨papers, hp⟩ := Option.isSome_iff_exists.1 hbp
  obtain ⟨people, hpe⟩ := Option.isSome_iff_exists.1 hbpe
  obtain ⟨venues, hve⟩ := Option.isSome_iff_exists.1 hbve
  simp [export_anthology, hp, hpe, hvols, hve]

theorem build_paper_record_none_of_bad_author (pe : PeopleIndex) (p : Paper)
    (ns : List PName) (nm : PName)
    (hns : dget p.attrib "author" = some (Val.names ns)) (hnm : nm ∈ ns)
    (hslug : pe.get_slug nm = none) : build_paper_record pe p = none := by
  unfold build_paper_record Paper.as_dict
  simp only [Option.bind_eq_bind, Option.bind_eq_none]
  intro d1 h1 d2 h2 d3 h3 d4 h4
  have tr : dget d3 "author" = some (Val.names ns) := by
    rw [dget_html_variant_step_ne _ _ _ _ _ _ h3 (by decide) (by decide),
      dget_html_variant_step_ne _ _ _ _ _ _ h2 (by decide) (by decide),
      dget_ddel_ne _ _ _ _ h1 (by decide), dget_dset_ne _ _ _ _ (by decide)]
    exact hns
  have hres : resolve_names pe d3 "author" = none := by
    unfold resolve_names
    simp [tr, mapOpt_eq_none pe.get_slug ns nm hnm hslug]
  rw [hres] at h4
  exact Option.noConfusion h4

theorem venue_entry_none_of_bad_ref (vidx : List (String × Record)) (d : Record)
    (ys : List Nat) (vs : List String) (y : Nat) (k : String)
    (hy : dget d "years" = some (Val.nats ys)) (hmm : y ∈ ys)
    (hv : dget d "volumes" = some (Val.strs vs)) (hk : k ∈ vs)
    (hmiss : dget vidx k = none) : venue_entry vidx d = none := by
  unfold venue_entry
  rw [hy, hv]
  have hvv : venue_volumes_for_year vidx vs y = none := by
    unfold venue_volumes_for_year
    rw [filterOpt_eq_none _ vs k hk (by simp [hmiss])]
    rfl
  have hmap : mapOpt (fun y2 =>
      (venue_volumes_for_year vidx vs y2).map (fun l => (y2, l)))
      (pySorted (fun y2 => y2) ys) = none :=
    mapOpt_eq_none _ _ y ((pySorted_perm (fun y2 : Nat => y2) ys).mem_iff.2 hmm)
      (by rw [hvv]; rfl)
  simp [hmap]

/-- C9: Lookup failures are fatal and produce no result (Option none), and a
consistent object graph exports successfully with no validation by the
indexer: (1) a consistent graph gives isSome; (2) a paper author with no
registered slug makes the whole export none; (3) a venue whose active-year
set is nonempty and which lists a volume id missing from the built volume
index makes the whole export none. -/
theorem export_error_handling (anth : Anthology) (outdir : String)
    (existing : List String) (dryrun : Bool) :
    (consistent_b anth = true →
      (export_anthology anth outdir existing dryrun).isSome) ∧
    (∀ q ∈ anth.papers, ∀ ns nm,
      dget (q : String × Paper).2.attrib "author" = some (Val.names ns) →
      nm ∈ ns → anth.people.get_slug nm = none →
      export_anthology anth outdir existing dryrun = none) ∧
    (∀ vols, build_volumes anth = some vols →
      ∀ q ∈ anth.venues, ∀ ys vs y k,
        dget (q : String × Record).2 "years" = some (Val.nats ys) → y ∈ ys →
        dget q.2 "volumes" = some (Val.strs vs) → k ∈ vs →
        dget vols.1 k = none →
        export_anthology anth outdir existing dryrun = none) := by
  refine ⟨export_isSome_of_consistent anth outdir existing dryrun, ?_, ?_⟩
  · intro q hq ns nm hns hnm hslug
    have hrec := build_paper_record_none_of_bad_author anth.people q.2 ns nm
      hns hnm hslug
    have hbp : build_papers anth = none := by
      unfold build_papers
      exact foldOpt_map_eq_none (fun q2 => build_paper_record anth.people q2.2)
        (fun i q2 data => dset2 i q2.2.top_level_id q2.2.full_id data)
        anth.papers [] q hq hrec
    simp [export_anthology, hbp]
  · intro vols hvols q hq ys vs y k hy hmm hv hk hmiss
    have hve := venue_entry_none_of_bad_ref vols.1 q.2 ys vs y k hy hmm hv hk hmiss
    have hbv : build_venues vols.1 anth.venues = none := by
      unfold build_venues
      exact foldOpt_map_eq_none (fun q2 => venue_entry vols.1 q2.2)
        (fun i q2 r => dset i q2.1 r) anth.venues [] q hq hve
    cases hp : build_papers anth with
    | none => simp [export_anthology, hp]
    | some papers =>
        cases hpe : build_people anth with
        | none => simp [export_anthology, hp, hpe]
        | some people => simp [export_anthology, hp, hpe, hvols, hbv]

/-- A graph with an author name that has no registered slug. -/
def badAuthorAnth : Anthology :=
  { papers := [("2020.acl-main.1", samplePaper)]
    people :=
      { name_list := []
        slugs := []
        canonicals := []
        papers_of := []
        coauthors_of := []
        venues_of := []
        variants_of := []
        canonical_of := [] }
    volumes := []
    venues := []
    sigs := [] }

def badVenueData : Record :=
  [("years", Val.nats [2020]), ("volumes", Val.strs ["missing"])]

/-- A graph whose venue lists a volume id absent from the volume index. -/
def badVenueAnth : Anthology :=
  { papers := []
    people :=
      { name_list := []
        slugs := []
        canonicals := []
        papers_of := []
        coauthors_of := []
        venues_of := []
        variants_of := []
        canonical_of := [] }
    volumes := []
    venues := [("acl", badVenueData)]
    sigs := [] }

/-- Witness for export_error_handling: the sample graph is consistent and
exports; a dangling author slug and a dangling volume id each abort. -/
theorem export_error_handling_witness :
    (export_anthology sampleAnth "out" [] true).isSome ∧
    export_anthology badAuthorAnth "out" [] true = none ∧
    export_anthology badVenueAnth "out" [] true = none := by
  refine ⟨(export_error_handling sampleAnth "out" [] true).1 (by decide), ?_, ?_⟩
  · exact (export_error_handling badAuthorAnth "out" [] true).2.1
      ("2020.acl-main.1", samplePaper) (by decide) [jane] jane (by decide)
      (by decide) (by decide)
  · exact (export_error_handling badVenueAnth "out" [] true).2.2
      ([], []) (by decide) ("acl", badVenueData) (by decide) [2020] ["missing"]
      2020 "missing" (by decide) (by decide) (by decide) (by decide) (by decide)

end CreateHugoYaml
